import Mathlib

/-!
# File receiver of the aah log package: rotation-aware file writer

A shallow embedding of `file_receiver.go`.  The receiver appends formatted log
records to a file and rotates the file by calendar day, line count or byte
size.  The operating system is an explicit state (`FS`), the outcome of each
system call that may fail is an explicit input (`Sys`), the wall clock is an
explicit input (`Time`), and the collaborators of the receiver that live in
other files are the fields of `Deps`.
-/

namespace Aah

/-! ## Data model -/

/-- Go strings and byte slices are byte sequences; one list element per byte. -/
abbrev Str := List Char

/-- A civil date: what `Year()`, `Month()` and `Day()` report for an instant in
one location. -/
structure Date where
  year : Int
  month : Nat
  day : Nat
deriving DecidableEq, Repr

/-- An instant as `time.Now()` returns it: its civil date in the local zone and
in UTC, and the location the value is currently expressed in. -/
structure Time where
  localDate : Date
  utcDate : Date
  inUTC : Bool
deriving DecidableEq, Repr

/-- The civil date of the instant in the location of the value. -/
def Time.date (t : Time) : Date :=
  if t.inUTC then t.utcDate else t.localDate

/-- Go `t.UTC()`: the same instant, expressed in UTC. -/
def Time.UTC (t : Time) : Time :=
  { t with inUTC := true }

/-- Go `t.Day()`: the day of the month of the instant in its location. -/
def Time.Day (t : Time) : Int :=
  (t.date.day : Int)

/-- The `receiverStats` record: bytes and lines of the active file (`int64`). -/
structure receiverStats where
  bytes : Int
  lines : Int
deriving DecidableEq, Repr

/-- An `*os.File` used as `io.Writer`: the path it was opened at and whether it
has been closed. -/
structure File where
  path : Str
  closed : Bool
deriving DecidableEq, Repr

/-- The `FileReceiver` struct (the lock `rw` has no sequential content). -/
structure FileReceiver (Flags : Type) where
  filename : Str
  out : File
  formatter : Str
  flags : Flags
  isCallerInfo : Bool
  stats : receiverStats
  isClosed : Bool
  rotatePolicy : Str
  openDay : Int
  isUTC : Bool
  maxSize : Int
  maxLines : Int

/-- The rotation policy names of the `switch` in `Init` and `isRotate`. -/
def policyDaily : Str := ['d', 'a', 'i', 'l', 'y']

/-- The policy name "lines". -/
def policyLines : Str := ['l', 'i', 'n', 'e', 's']

/-- The policy name "size". -/
def policySize : Str := ['s', 'i', 'z', 'e']

/-! ## Paths: package `path/filepath` with the separator `/` -/

/-- The path elements between separators. -/
def splitSep : Str → List Str
  | [] => [[]]
  | c :: cs =>
    if c = '/' then [] :: splitSep cs
    else
      match splitSep cs with
      | [] => [[c]]
      | x :: xs => (c :: x) :: xs

/-- Path elements written back with one separator between neighbours. -/
def joinSep : List Str → Str
  | [] => []
  | [x] => x
  | x :: y :: rest => x ++ '/' :: joinSep (y :: rest)

/-- The path element `.`. -/
def dot : Str := ['.']

/-- The path element `..`. -/
def dotdot : Str := ['.', '.']

/-- One element of the scan of `filepath.Clean`; the elements kept so far are a
stack with the latest on top (the head).  Empty and `.` elements are dropped;
`..` removes the element before it when there is one that is not `..`, is
dropped at the root, and is kept otherwise. -/
def cleanStep (rooted : Bool) (stack : List Str) (e : Str) : List Str :=
  if e = [] ∨ e = dot then stack
  else if e = dotdot then
    match stack with
    | [] => if rooted then [] else [dotdot]
    | top :: rest =>
      if top ≠ dotdot then rest
      else if rooted then stack
      else dotdot :: stack
  else e :: stack

/-- Go `filepath.Clean`: the shortest path equivalent to `path` by lexical
processing. -/
def Clean (path : Str) : Str :=
  if path = [] then dot
  else
    let rooted : Bool := decide (path.head? = some '/')
    let body := joinSep ((splitSep path).foldl (cleanStep rooted) []).reverse
    if rooted then '/' :: body
    else if body = [] then dot
    else body

/-- Go `filepath.Dir`: all but the last element of `path`, cleaned. -/
def Dir (path : Str) : Str :=
  Clean (path.rdropWhile (fun c => decide (c ≠ '/')))

/-- Go `filepath.Base`: the last element of `path`. -/
def Base (path : Str) : Str :=
  if path = [] then dot
  else
    let last := (path.rdropWhile (fun c => decide (c = '/'))).rtakeWhile
      (fun c => decide (c ≠ '/'))
    if last = [] then ['/'] else last

/-- The loop of `filepath.Ext`, from the last byte backwards: `acc` holds the
bytes already passed. -/
def extRev : Str → Str → Str
  | [], _ => []
  | c :: cs, acc =>
    if c = '/' then []
    else if c = '.' then '.' :: acc
    else extRev cs (c :: acc)

/-- Go `filepath.Ext`: the suffix beginning at the final dot in the final
element of `path`, empty if there is no dot. -/
def Ext (path : Str) : Str :=
  extRev path.reverse []

/-- Go `filepath.Join` of two elements. -/
def Join (dir name : Str) : Str :=
  if dir ≠ [] then Clean (dir ++ '/' :: name)
  else if name ≠ [] then Clean name
  else []

/-- Modelled from the spec: `ess.StripExt` is a helper of the essentials
package and is missing from the sources; the spec names its result `baseName`,
the file name without its `extension`, so it is the name with the suffix that
`filepath.Ext` reports removed. -/
def StripExt (name : Str) : Str :=
  name.take (name.length - (Ext name).length)

/-! ## Operating system -/

/-- The files of the file system: the content stored at each path. -/
structure FS where
  files : Str → Option Str

/-- The outcome of the system calls of one receiver operation that the receiver
cannot influence: which of them fail, and how many bytes the write accepts. -/
structure Sys where
  renameFails : Bool
  openFails : Bool
  statFails : Bool
  writeCap : Nat
deriving DecidableEq, Repr

/-- The errors the receiver returns. -/
inductive Error where
  | fileRequired
  | unsupportedFormat
  | badSize
  | rename
  | openFile
  | stat
  | badPattern
deriving DecidableEq, Repr

/-- Go `os.Lstat(path)` returns no error. -/
def FS.exists (fs : FS) (path : Str) : Bool :=
  (fs.files path).isSome

/-- Go `os.Rename(old, new)` when it succeeds. -/
def FS.rename (fs : FS) (old new : Str) : FS :=
  { files := fun p => if p = new then fs.files old else if p = old then none else fs.files p }

/-- The effect of `os.OpenFile` with `O_CREATE`: an absent file is created empty. -/
def FS.create (fs : FS) (path : Str) : FS :=
  { files := fun p => if p = path ∧ fs.files path = none then some [] else fs.files p }

/-- The content of the file at `path`, empty when there is none. -/
def FS.content (fs : FS) (path : Str) : Str :=
  (fs.files path).getD []

/-- The effect of a write in append mode: `bytes` go to the end of the file. -/
def FS.append (fs : FS) (path : Str) (bytes : Str) : FS :=
  { files := fun p => if p = path then (fs.files path).map (fun c => c ++ bytes) else fs.files p }

/-- Modelled from the spec: `ess.LineCntr` is a helper of the essentials
package and is missing from the sources; the spec calls its result the line
count of the opened file, so it is the number of newline bytes of the content. -/
def LineCntr (content : Str) : Int :=
  (content.count '\n' : Int)

/-- Go `f.out.Write(msg)`: a closed file takes nothing; an open one takes as
many bytes as the system accepts, in order from the front.  Returns the file
system after the write and the `size` result. -/
def Write (io : Sys) (fs : FS) (out : File) (msg : Str) : FS × Nat :=
  if out.closed then (fs, 0)
  else (fs.append out.path (msg.take io.writeCap), min io.writeCap msg.length)

/-! ## Collaborators -/

/-- The functions and constants the receiver uses that are defined in other
files: the formatter, the flag parser, the backup time layout, and the helpers
of the essentials package. -/
structure Deps (Flags Entry : Type) where
  /-- The function `applyFormatter(formatter, flags, entry)`. -/
  applyFormatter : Str → Flags → Entry → Str
  /-- The call `t.Format(BackupTimeFormat)`. -/
  formatBackupTime : Time → Str
  /-- The function `parseFlag(pattern)`, `none` when it returns an error. -/
  parseFlag : Str → Option Flags
  /-- The function `isCallerInfo(flags)`. -/
  isCallerInfo : Flags → Bool
  /-- The call `isFmtFlagExists(flags, FmtFlagUTCTime)`. -/
  hasUTCFlag : Flags → Bool
  /-- The helper `ess.IsStrEmpty`. -/
  IsStrEmpty : Str → Bool
  /-- The helper `ess.StrToBytes`, `none` when it returns an error. -/
  StrToBytes : Str → Option Int

/-- The format name `textFmt`. -/
def textFmt : Str := ['t', 'e', 'x', 't']

/-- The format name `jsonFmt`. -/
def jsonFmt : Str := ['j', 's', 'o', 'n']

/-- The values `Init` reads from the configuration, before defaults. -/
structure Config where
  file : Option Str
  format : Option Str
  rotatePolicy : Option Str
  rotateLines : Option Int
  rotateSize : Option Str

/-- What a receiver operation with an `error` result leaves behind. -/
structure Res (Flags : Type) where
  fs : FS
  f : FileReceiver Flags
  err : Option Error

/-! ## Rotation decision -/

/-- The method `isRotate`, evaluated when the clock reads `now`. -/
def isRotate {Flags : Type} (f : FileReceiver Flags) (now : Time) : Bool :=
  if f.rotatePolicy = policyDaily then
    if f.isUTC then
      decide (now.UTC.Day ≠ f.openDay)
    else
      decide (now.Day ≠ f.openDay)
  else if f.rotatePolicy = policyLines then
    decide (f.maxLines ≠ 0) && decide (f.stats.lines ≥ f.maxLines)
  else if f.rotatePolicy = policySize then
    decide (f.maxSize ≠ 0) && decide (f.stats.bytes ≥ f.maxSize)
  else
    false

/-- The instant in the time reference the receiver uses: UTC when `isUTC`. -/
def activeTime (isUTC : Bool) (t : Time) : Time :=
  if isUTC then t.UTC else t

/-! ## Receiver operations -/

section Operations

variable {Flags Entry : Type}

/-- The method `close`: closes the file once, guarded by `isClosed`. -/
def close (f : FileReceiver Flags) : FileReceiver Flags :=
  if f.isClosed then f
  else { f with out := { f.out with closed := true }, isClosed := true }

/-- The method `backupFileName`, evaluated when the clock reads `now`. -/
def backupFileName (d : Deps Flags Entry) (f : FileReceiver Flags) (now : Time) : Str :=
  let dir := Dir f.filename
  let fileName := Base f.filename
  let ext := Ext fileName
  let baseName := StripExt fileName
  let t := if f.isUTC then now.UTC else now
  Join dir (baseName ++ '-' :: (d.formatBackupTime t ++ ext))

/-- The method `openFile`: opens the file at `filename` for appending, creating
it when absent, and takes the statistics from the opened file. -/
def openFile (io : Sys) (fs : FS) (f : FileReceiver Flags) : Res Flags :=
  if io.openFails then ⟨fs, f, some Error.openFile⟩
  else
    let fs1 := fs.create f.filename
    if io.statFails then ⟨fs1, f, some Error.stat⟩
    else
      let content := fs1.content f.filename
      ⟨fs1,
       { f with
         out := { path := f.filename, closed := false }
         isClosed := false
         stats := { bytes := (content.length : Int), lines := LineCntr content } },
       none⟩

/-- The method `rotateFile`: when the file exists it is closed and renamed to
the backup name; then the file is opened again. -/
def rotateFile (d : Deps Flags Entry) (io : Sys) (now : Time) (fs : FS)
    (f : FileReceiver Flags) : Res Flags :=
  if fs.exists f.filename then
    let f1 := close f
    if io.renameFails then ⟨fs, f1, some Error.rename⟩
    else openFile io (fs.rename f.filename (backupFileName d f1 now)) f1
  else openFile io fs f

/-- The first statement of `Log`: rotate when `isRotate` says so, and discard
the error of the rotation. -/
def rotateIfDue (d : Deps Flags Entry) (io : Sys) (now : Time) (fs : FS)
    (f : FileReceiver Flags) : Res Flags :=
  if isRotate f now then rotateFile d io now fs f else ⟨fs, f, none⟩

/-- The record `Log` writes for the formatter output `msg`: a newline is added
when `msg` is empty or its last byte is not a newline. -/
def record (msg : Str) : Str :=
  if msg.length = 0 ∨ msg.getLast? ≠ some '\n' then msg ++ ['\n'] else msg

/-- The method `Log`.  It has no result; the file system and the receiver after
the call are returned. -/
def Log (d : Deps Flags Entry) (io : Sys) (now : Time) (fs : FS) (f : FileReceiver Flags)
    (entry : Entry) : FS × FileReceiver Flags :=
  let r := rotateIfDue d io now fs f
  let msg := record (d.applyFormatter r.f.formatter r.f.flags entry)
  let w := Write io r.fs r.f.out msg
  if w.2 = 0 then (w.1, r.f)
  else
    (w.1,
     { r.f with
       stats := { bytes := r.f.stats.bytes + (w.2 : Int), lines := r.f.stats.lines + 1 } })

/-- A sequence of `Log` calls, each with its own system outcome and clock. -/
def LogAll (d : Deps Flags Entry) :
    List (Sys × Time × Entry) → FS × FileReceiver Flags → FS × FileReceiver Flags
  | [], s => s
  | (io, now, entry) :: rest, s => LogAll d rest (Log d io now s.1 s.2 entry)

/-- The size string `Init` uses when `log.rotate.size` is not configured. -/
def defaultRotateSize : Str := ['5', '1', '2', 'm', 'b']

/-- The method `Init`, evaluated when the clock reads `now`. -/
def Init (d : Deps Flags Entry) (io : Sys) (now : Time) (cfg : Config) (fs : FS)
    (f : FileReceiver Flags) : Res Flags :=
  let f1 := { f with filename := cfg.file.getD [] }
  if d.IsStrEmpty f1.filename then ⟨fs, f1, some Error.fileRequired⟩
  else
    let r := openFile io fs f1
    match r.err with
    | some e => ⟨r.fs, r.f, some e⟩
    | none =>
      let f2 := { r.f with formatter := cfg.format.getD textFmt }
      if ¬ (f2.formatter = textFmt ∨ f2.formatter = jsonFmt) then
        ⟨r.fs, f2, some Error.unsupportedFormat⟩
      else
        let f3 := { f2 with rotatePolicy := cfg.rotatePolicy.getD policyDaily }
        if f3.rotatePolicy = policyDaily then
          ⟨r.fs, { f3 with openDay := now.Day }, none⟩
        else if f3.rotatePolicy = policyLines then
          ⟨r.fs, { f3 with maxLines := cfg.rotateLines.getD 0 }, none⟩
        else if f3.rotatePolicy = policySize then
          match d.StrToBytes (cfg.rotateSize.getD defaultRotateSize) with
          | none => ⟨r.fs, f3, some Error.badSize⟩
          | some maxSize => ⟨r.fs, { f3 with maxSize := maxSize }, none⟩
        else ⟨r.fs, f3, none⟩

/-- The method `SetPattern`, evaluated when the clock reads `now`. -/
def SetPattern (d : Deps Flags Entry) (now : Time) (f : FileReceiver Flags)
    (pattern : Str) : FileReceiver Flags × Option Error :=
  match d.parseFlag pattern with
  | none => (f, some Error.badPattern)
  | some flags =>
    let f1 := { f with flags := flags }
    let f2 := if f1.formatter = textFmt then { f1 with isCallerInfo := d.isCallerInfo f1.flags }
      else f1
    let f3 := { f2 with isUTC := d.hasUTCFlag f2.flags }
    if f3.isUTC then ({ f3 with openDay := now.UTC.Day }, none) else (f3, none)

end Operations

/-! ## Concrete inputs -/

/-- A system in which every call succeeds and writes are complete. -/
def okSys : Sys :=
  { renameFails := false, openFails := false, statFails := false, writeCap := 4096 }

/-- An instant on the given civil date, the same date locally and in UTC. -/
def onDate (year : Int) (month day : Nat) : Time :=
  { localDate := ⟨year, month, day⟩, utcDate := ⟨year, month, day⟩, inUTC := false }

/-- Collaborators for concrete runs: the entry is the formatted message, the
backup time is the civil date written `y-m-d`, no flag asks for UTC. -/
def demoDeps : Deps Unit Str :=
  { applyFormatter := fun _ _ entry => entry
    formatBackupTime := fun t =>
      Nat.toDigits 10 t.date.year.toNat ++ '-' :: (Nat.toDigits 10 t.date.month ++
        '-' :: Nat.toDigits 10 t.date.day)
    parseFlag := fun _ => some ()
    isCallerInfo := fun _ => false
    hasUTCFlag := fun _ => false
    IsStrEmpty := fun s => s.isEmpty
    StrToBytes := fun _ => some 100 }

/-- The path `logs/app.log`. -/
def demoPath : Str := "logs/app.log".toList

/-- A receiver before `Init`. -/
def blankReceiver : FileReceiver Unit :=
  { filename := [], out := ⟨[], true⟩, formatter := [], flags := (), isCallerInfo := false,
    stats := ⟨0, 0⟩, isClosed := false, rotatePolicy := [], openDay := 0, isUTC := false,
    maxSize := 0, maxLines := 0 }

/-- A file system without files. -/
def emptyFS : FS := { files := fun _ => none }

/-- A configuration naming `logs/app.log` with the given policy and line limit. -/
def demoConfig (policy : Str) (lines : Int) : Config :=
  { file := some demoPath, format := none, rotatePolicy := some policy,
    rotateLines := some lines, rotateSize := none }

/-- The receiver and file system after `Init` on an empty file system. -/
def demoStart (policy : Str) (lines : Int) (now : Time) : Res Unit :=
  Init demoDeps okSys now (demoConfig policy lines) emptyFS blankReceiver


/-! ## Cleaned paths -/

/-- The test `path[0] == '/'` of `filepath.Clean`. -/
def rootedOf (p : Str) : Bool :=
  decide (p.head? = some '/')

/-- The elements `filepath.Clean` keeps of `p`, the last one first. -/
def stackOf (p : Str) : List Str :=
  (splitSep p).foldl (cleanStep (rootedOf p)) []

/-- The path `filepath.Clean` writes for the kept elements. -/
def render (rooted : Bool) (stack : List Str) : Str :=
  if rooted then '/' :: joinSep stack.reverse
  else if joinSep stack.reverse = [] then dot
  else joinSep stack.reverse

/-- The shape of the elements `filepath.Clean` keeps: no element has a
separator, is empty or is `.`; an element `..` occurs only in a path that is not
rooted, and only with `..` elements before it. -/
def CleanStack (rooted : Bool) : List Str → Prop
  | [] => True
  | top :: rest =>
    '/' ∉ top ∧ top ≠ [] ∧ top ≠ dot ∧
      (top = dotdot → rooted = false ∧ ∀ x ∈ rest, x = dotdot) ∧ CleanStack rooted rest

/-- A file name: a path element that is not empty, `.` or `..`. -/
def IsName (n : Str) : Prop :=
  '/' ∉ n ∧ n ≠ [] ∧ n ≠ dot ∧ n ≠ dotdot

/-! ## Runs -/

/-- The records of a sequence of `Log` calls, one after the other, as the
receiver `f` formats them. -/
def written {Flags Entry : Type} (d : Deps Flags Entry) (f : FileReceiver Flags) :
    List (Sys × Time × Entry) → Str
  | [] => []
  | x :: rest => record (d.applyFormatter f.formatter f.flags x.2.2) ++ written d f rest

/-- Every system call of the `Log` call succeeds and the write takes the whole
record. -/
def CallOk {Flags Entry : Type} (d : Deps Flags Entry) (f : FileReceiver Flags)
    (x : Sys × Time × Entry) : Prop :=
  x.1.renameFails = false ∧ x.1.openFails = false ∧ x.1.statFails = false ∧
    (record (d.applyFormatter f.formatter f.flags x.2.2)).length ≤ x.1.writeCap

instance {Flags Entry : Type} (d : Deps Flags Entry) (f : FileReceiver Flags)
    (x : Sys × Time × Entry) : Decidable (CallOk d f x) := by
  unfold CallOk
  infer_instance

/-- A receiver for `logs/app.log` that has not opened its file yet. -/
def demoReceiver (policy : Str) (maxLines maxSize : Int) : FileReceiver Unit :=
  { blankReceiver with
    filename := demoPath, formatter := textFmt, rotatePolicy := policy,
    maxLines := maxLines, maxSize := maxSize }

/-- A `Log` call on 1 June 2017 in which every system call succeeds. -/
def demoCall (entry : Str) : Sys × Time × Str :=
  (okSys, onDate 2017 6 1, entry)

/-- A `Log` call on 2 June 2017 in which every system call succeeds. -/
def demoCallNextDay (entry : Str) : Sys × Time × Str :=
  (okSys, onDate 2017 6 2, entry)

/-- A formatter output of 19 bytes; its record has 20 bytes. -/
def entry19 : Str := List.replicate 19 'x'

/-! ## Theorems -/

section Theorems

variable {Flags Entry : Type}

/-- The policy names are distinct. -/
theorem policy_names_ne :
    policyLines ≠ policyDaily ∧ policySize ≠ policyDaily ∧ policySize ≠ policyLines := by
  decide

/-- C1: under the "lines" policy `isRotate` is true exactly when `maxLines` is
not 0 and `stats.lines` has reached `maxLines`, under the "size" policy exactly
when `maxSize` is not 0 and `stats.bytes` has reached `maxSize`; below the
threshold, and with a threshold of 0, it is false. -/
theorem isRotate_lines_size (f : FileReceiver Flags) (now : Time) :
    (f.rotatePolicy = policyLines →
      (isRotate f now = true ↔ f.maxLines ≠ 0 ∧ f.stats.lines ≥ f.maxLines) ∧
      (f.stats.lines < f.maxLines → isRotate f now = false) ∧
      (f.maxLines = 0 → isRotate f now = false)) ∧
    (f.rotatePolicy = policySize →
      (isRotate f now = true ↔ f.maxSize ≠ 0 ∧ f.stats.bytes ≥ f.maxSize) ∧
      (f.stats.bytes < f.maxSize → isRotate f now = false) ∧
      (f.maxSize = 0 → isRotate f now = false)) := by
  have hld : policyLines ≠ policyDaily := by decide
  have hsd : policySize ≠ policyDaily := by decide
  have hsl : policySize ≠ policyLines := by decide
  refine ⟨fun h => ?_, fun h => ?_⟩
  · have e : isRotate f now = (decide (f.maxLines ≠ 0) && decide (f.stats.lines ≥ f.maxLines)) := by
      simp [isRotate, h, hld]
    refine ⟨?_, ?_, ?_⟩
    · rw [e]; simp
    · intro hlt; rw [e]; simp; intro _; exact hlt
    · intro h0; rw [e]; simp [h0]
  · have e : isRotate f now = (decide (f.maxSize ≠ 0) && decide (f.stats.bytes ≥ f.maxSize)) := by
      simp [isRotate, h, hsd, hsl]
    refine ⟨?_, ?_, ?_⟩
    · rw [e]; simp
    · intro hlt; rw [e]; simp; intro _; exact hlt
    · intro h0; rw [e]; simp [h0]

/-- Witness of C1: a receiver under the "lines" policy with limit 3 and 3 lines
written rotates. -/
theorem isRotate_lines_size_witness :
    isRotate { blankReceiver with rotatePolicy := policyLines, maxLines := 3, stats := ⟨60, 3⟩ }
      (onDate 2017 6 1) = true :=
  ((isRotate_lines_size
      { blankReceiver with rotatePolicy := policyLines, maxLines := 3, stats := ⟨60, 3⟩ }
      (onDate 2017 6 1)).1 rfl).1.2 ⟨by decide, by decide⟩

/-! ### The daily policy -/

/-- After a successful `Init` under the daily policy, `openDay` is the day of
the month of the local date at the time of the call. -/
theorem Init_daily_openDay (d : Deps Flags Entry) (io : Sys) (t0 : Time) (cfg : Config)
    (fs : FS) (f0 : FileReceiver Flags)
    (hok : (Init d io t0 cfg fs f0).err = none)
    (hpol : (Init d io t0 cfg fs f0).f.rotatePolicy = policyDaily) :
    (Init d io t0 cfg fs f0).f.openDay = t0.Day := by
  by_cases h1 : d.IsStrEmpty (cfg.file.getD []) = true
  · simp [Init, h1] at hok
  · cases h2 : (openFile io fs { f0 with filename := cfg.file.getD [] }).err with
    | some e => simp [Init, h1, h2] at hok
    | none =>
      by_cases h3 : cfg.format.getD textFmt = textFmt ∨ cfg.format.getD textFmt = jsonFmt
      · by_cases h4 : cfg.rotatePolicy.getD policyDaily = policyDaily
        · simp [Init, h1, h2, h3, h4]
        · exfalso
          by_cases h5 : cfg.rotatePolicy.getD policyDaily = policyLines
          · simp [Init, h1, h2, h3, h4, h5, policy_names_ne.1] at hpol
          · by_cases h6 : cfg.rotatePolicy.getD policyDaily = policySize
            · cases h7 : d.StrToBytes (cfg.rotateSize.getD defaultRotateSize) with
              | none => simp [Init, h1, h2, h3, h4, h5, h6, h7, policy_names_ne.2.1, policy_names_ne.2.2] at hok
              | some n =>
                simp [Init, h1, h2, h3, h4, h5, h6, h7, policy_names_ne.2.1, policy_names_ne.2.2] at hpol
            · simp [Init, h1, h2, h3, h4, h5, h6] at hpol
      · simp [Init, h1, h2, h3] at hok

/-- After `SetPattern` with a pattern that has the UTC flag, the receiver uses
UTC and `openDay` is the day of the month of the UTC date at the time of the
call. -/
theorem SetPattern_utc_openDay (d : Deps Flags Entry) (t0 : Time) (f : FileReceiver Flags)
    (pattern : Str) (flags : Flags) (hp : d.parseFlag pattern = some flags)
    (hutc : d.hasUTCFlag flags = true) :
    (SetPattern d t0 f pattern).1.isUTC = true ∧
      (SetPattern d t0 f pattern).1.openDay = t0.UTC.Day := by
  unfold SetPattern
  simp only [hp]
  split <;> simp [hutc]

/-- C2, amended: under the daily policy, with `openDay` recorded at `t0` in the
active time reference, `isRotate` at `t1` is true exactly when the day of the
month of `t1` differs from that of `t0`; it is false when the two instants fall
on the same calendar day, and true when they fall on different days of the same
month of the same year. -/
theorem isRotate_daily (f : FileReceiver Flags) (t0 t1 : Time)
    (hpol : f.rotatePolicy = policyDaily)
    (hday : f.openDay = (activeTime f.isUTC t0).Day) :
    (isRotate f t1 = true ↔ (activeTime f.isUTC t1).Day ≠ (activeTime f.isUTC t0).Day) ∧
    ((activeTime f.isUTC t1).date = (activeTime f.isUTC t0).date → isRotate f t1 = false) ∧
    ((activeTime f.isUTC t1).date ≠ (activeTime f.isUTC t0).date →
      (activeTime f.isUTC t1).date.year = (activeTime f.isUTC t0).date.year →
      (activeTime f.isUTC t1).date.month = (activeTime f.isUTC t0).date.month →
      isRotate f t1 = true) := by
  have e : isRotate f t1 = decide ((activeTime f.isUTC t1).Day ≠ f.openDay) := by
    unfold isRotate activeTime
    rw [if_pos hpol]
    cases f.isUTC <;> simp
  refine ⟨?_, ?_, ?_⟩
  · rw [e, hday]; simp
  · intro hd
    rw [e, hday]
    simp [Time.Day, hd]
  · intro hne hy hm
    rw [e, hday]
    simp only [Time.Day, ne_eq, decide_eq_true_eq, Nat.cast_inj]
    intro hdd
    apply hne
    cases h1 : (activeTime f.isUTC t1).date
    cases h0 : (activeTime f.isUTC t0).date
    simp only [h1, h0] at hy hm hdd
    simp [hy, hm, hdd]

/-- Witness of C2: after `Init` on 1 June 2017, a call on 2 June rotates. -/
theorem isRotate_daily_witness :
    isRotate (demoStart policyDaily 0 (onDate 2017 6 1)).f (onDate 2017 6 2) = true :=
  ((isRotate_daily (demoStart policyDaily 0 (onDate 2017 6 1)).f (onDate 2017 6 1)
      (onDate 2017 6 2) (by decide) (by decide)).1).2 (by decide)

/-- C2, counterexample: the file is opened by `Init` on 15 January 2017 and
`Log` is called on 15 February 2017; the calendar days differ, and `isRotate`
is false. -/
theorem isRotate_daily_month_apart :
    (demoStart policyDaily 0 (onDate 2017 1 15)).err = none ∧
    (demoStart policyDaily 0 (onDate 2017 1 15)).f.rotatePolicy = policyDaily ∧
    (activeTime (demoStart policyDaily 0 (onDate 2017 1 15)).f.isUTC (onDate 2017 2 15)).date ≠
      (activeTime (demoStart policyDaily 0 (onDate 2017 1 15)).f.isUTC (onDate 2017 1 15)).date ∧
    isRotate (demoStart policyDaily 0 (onDate 2017 1 15)).f (onDate 2017 2 15) = false := by
  decide

/-! ### The written record and the counters -/

/-- The last byte of a record is a newline. -/
theorem record_getLast (m : Str) : (record m).getLast? = some '\n' := by
  unfold record
  split
  · simp
  · rename_i h
    simp only [not_or, not_not] at h
    exact h.2

/-- C6, amended: the record `Log` hands to the write is the formatter output
`m` itself when `m` is non-empty and ends in a newline, and `m` followed by one
newline otherwise; it always ends in a newline; when `m` has no newline before
its last byte, the record has exactly one newline, at its end. -/
theorem record_spec (d : Deps Flags Entry) (io : Sys) (now : Time) (fs : FS)
    (f : FileReceiver Flags) (entry : Entry) (m : Str)
    (hm : m = d.applyFormatter (rotateIfDue d io now fs f).f.formatter
      (rotateIfDue d io now fs f).f.flags entry) :
    (Log d io now fs f entry).1 =
      (Write io (rotateIfDue d io now fs f).fs (rotateIfDue d io now fs f).f.out (record m)).1 ∧
    record m = (if m ≠ [] ∧ m.getLast? = some '\n' then m else m ++ ['\n']) ∧
    (record m).getLast? = some '\n' ∧
    ((∀ c ∈ m.dropLast, c ≠ '\n') →
      (record m).count '\n' = 1 ∧ (record m).dropLast.getLast? ≠ some '\n') := by
  have hrec : record m = (if m ≠ [] ∧ m.getLast? = some '\n' then m else m ++ ['\n']) := by
    unfold record
    by_cases h0 : m = []
    · simp [h0]
    · have hl : ¬ m.length = 0 := by simpa using h0
      by_cases h1 : m.getLast? = some '\n' <;> simp [h0, h1]
  refine ⟨?_, hrec, record_getLast m, ?_⟩
  · subst hm
    unfold Log
    simp only
    split <;> rfl
  · intro hfree
    have hcount : m.dropLast.count '\n' = 0 :=
      List.count_eq_zero.mpr (fun hmem => hfree _ hmem rfl)
    have hlast : m.dropLast.getLast? ≠ some '\n' := by
      intro h
      exact hfree _ (List.mem_of_getLast?_eq_some h) rfl
    rw [hrec]
    by_cases h : m ≠ [] ∧ m.getLast? = some '\n'
    · rw [if_pos h]
      refine ⟨?_, hlast⟩
      have hsplit : m = m.dropLast ++ ['\n'] := by
        have := List.dropLast_append_getLast? '\n' (by simpa using h.2)
        exact this.symm
      rw [hsplit, List.count_append, hcount]
      simp
    · rw [if_neg h]
      rw [List.dropLast_concat]
      constructor
      · rw [List.count_append]
        have hm0 : m.count '\n' = 0 := by
          rcases List.eq_nil_or_concat m with h0 | ⟨l, a, hla⟩
          · simp [h0]
          · rw [List.concat_eq_append] at hla
            subst hla
            have ha : a ≠ '\n' := by
              intro ha
              apply h
              simp [ha]
            rw [List.dropLast_concat] at hcount
            rw [List.count_append, hcount]
            simp [List.count_singleton, ha]
        rw [hm0]
        simp
      · intro hl
        apply h
        refine ⟨?_, hl⟩
        intro h0
        simp [h0] at hl

/-- Witness of C6: the formatter output `a` is written as `a` and a newline. -/
theorem record_spec_witness :
    record ['a'] = ['a', '\n'] ∧ (record ['a']).count '\n' = 1 :=
  ⟨by decide,
   ((record_spec demoDeps okSys (onDate 2017 6 1) emptyFS blankReceiver ['a'] ['a'] rfl).2.2.2
      (by decide)).1⟩

/-- C6, counterexample: the formatter output `a` followed by two newlines is
written unchanged; the record ends in two newlines and holds two lines. -/
theorem record_two_newlines :
    record ['a', '\n', '\n'] = ['a', '\n', '\n'] ∧
    (record ['a', '\n', '\n']).dropLast.getLast? = some '\n' ∧
    (record ['a', '\n', '\n']).count '\n' = 2 := by
  decide

/-- C7, amended: when the write of a `Log` call returns zero bytes, the
receiver is left as the rotation check of that call left it, so the counters
are those before the call when the call did not rotate; a write of any other
size, complete or partial, adds that size to `stats.bytes` and 1 to
`stats.lines`.  `Log` has no error result. -/
theorem Log_counters (d : Deps Flags Entry) (io : Sys) (now : Time) (fs : FS)
    (f : FileReceiver Flags) (entry : Entry) (size : Nat)
    (hsize : size = (Write io (rotateIfDue d io now fs f).fs (rotateIfDue d io now fs f).f.out
      (record (d.applyFormatter (rotateIfDue d io now fs f).f.formatter
        (rotateIfDue d io now fs f).f.flags entry))).2) :
    (size = 0 → (Log d io now fs f entry).2 = (rotateIfDue d io now fs f).f) ∧
    (size = 0 → isRotate f now = false → (Log d io now fs f entry).2.stats = f.stats) ∧
    (size ≠ 0 → (Log d io now fs f entry).2.stats =
      { bytes := (rotateIfDue d io now fs f).f.stats.bytes + (size : Int),
        lines := (rotateIfDue d io now fs f).f.stats.lines + 1 }) := by
  subst hsize
  refine ⟨?_, ?_, ?_⟩
  · intro h0
    unfold Log
    simp only
    rw [if_pos h0]
  · intro h0 hrot
    unfold Log
    simp only
    rw [if_pos h0]
    simp [rotateIfDue, hrot]
  · intro h0
    unfold Log
    simp only
    rw [if_neg h0]

/-- Witness of C7: a write that accepts no byte leaves the counters of a
receiver that does not rotate unchanged. -/
theorem Log_counters_witness :
    (Log demoDeps { okSys with writeCap := 0 } (onDate 2017 6 1)
      (demoStart policyLines 3 (onDate 2017 6 1)).fs
      (demoStart policyLines 3 (onDate 2017 6 1)).f ['a']).2.stats =
      (demoStart policyLines 3 (onDate 2017 6 1)).f.stats :=
  (Log_counters demoDeps { okSys with writeCap := 0 } (onDate 2017 6 1)
      (demoStart policyLines 3 (onDate 2017 6 1)).fs
      (demoStart policyLines 3 (onDate 2017 6 1)).f ['a'] 0 (by decide)).2.1 rfl (by decide)

/-- C7, counterexample: the write accepts 2 of the 4 bytes of the record; the
call does not rotate, and the counters go from 0 bytes and 0 lines to 2 bytes
and 1 line. -/
theorem Log_short_write_counts :
    isRotate (demoStart policyLines 3 (onDate 2017 6 1)).f (onDate 2017 6 1) = false ∧
    (Write { okSys with writeCap := 2 } (demoStart policyLines 3 (onDate 2017 6 1)).fs
      (demoStart policyLines 3 (onDate 2017 6 1)).f.out (record ['a', 'b', 'c'])).2 = 2 ∧
    (record ['a', 'b', 'c']).length = 4 ∧
    (demoStart policyLines 3 (onDate 2017 6 1)).f.stats = ⟨0, 0⟩ ∧
    (Log demoDeps { okSys with writeCap := 2 } (onDate 2017 6 1)
      (demoStart policyLines 3 (onDate 2017 6 1)).fs
      (demoStart policyLines 3 (onDate 2017 6 1)).f ['a', 'b', 'c']).2.stats = ⟨2, 1⟩ := by
  decide

/-! ### Opening the file -/

/-- C8: a successful `openFile` on a file that holds `B` bytes and `N` lines
clears `isClosed` and sets the counters to `B` bytes and `N` lines; the file
keeps its content. -/
theorem openFile_stats (io : Sys) (fs : FS) (f : FileReceiver Flags) (content : Str)
    (B N : Nat) (hfile : fs.files f.filename = some content)
    (hB : content.length = B) (hN : content.count '\n' = N)
    (hok : (openFile io fs f).err = none) :
    (openFile io fs f).f.isClosed = false ∧
    (openFile io fs f).f.stats = { bytes := (B : Int), lines := (N : Int) } ∧
    (openFile io fs f).f.out = { path := f.filename, closed := false } ∧
    (openFile io fs f).fs.files f.filename = some content := by
  unfold openFile at hok ⊢
  by_cases h1 : io.openFails = true
  · simp [h1] at hok
  · by_cases h2 : io.statFails = true
    · simp [h1, h2] at hok
    · simp [h1, h2, FS.create, FS.content, hfile, LineCntr, hB, hN]

/-- Witness of C8: a file of 4 bytes in 2 lines is opened with those counters. -/
theorem openFile_stats_witness :
    (openFile okSys { files := fun p => if p = demoPath then some ['a', '\n', 'b', '\n'] else none }
      { blankReceiver with filename := demoPath }).f.stats = { bytes := 4, lines := 2 } :=
  (openFile_stats okSys
      { files := fun p => if p = demoPath then some ['a', '\n', 'b', '\n'] else none }
      { blankReceiver with filename := demoPath } ['a', '\n', 'b', '\n'] 4 2
      (by decide) (by decide) (by decide) (by decide)).2.1

/-! ### Paths -/

/-- A path has at least one element. -/
theorem splitSep_ne_nil (s : Str) : splitSep s ≠ [] := by
  cases s with
  | nil => simp [splitSep]
  | cons c cs =>
    unfold splitSep
    split
    · simp
    · split <;> simp

/-- Splitting at a separator: the elements of both sides, in order. -/
theorem splitSep_append (a b : Str) :
    splitSep (a ++ '/' :: b) = splitSep a ++ splitSep b := by
  induction a with
  | nil => simp [splitSep]
  | cons c a ih =>
    by_cases h : c = '/'
    · simp [splitSep, h, ih]
    · cases hsa : splitSep a with
      | nil => exact absurd hsa (splitSep_ne_nil a)
      | cons x xs => simp [splitSep, h, ih, hsa]

/-- A path without separator is its only element. -/
theorem splitSep_noSep (n : Str) (h : '/' ∉ n) : splitSep n = [n] := by
  induction n with
  | nil => rfl
  | cons c n ih =>
    have hc : c ≠ '/' := fun e => h (by simp [e])
    have hn : '/' ∉ n := fun e => h (List.mem_cons_of_mem _ e)
    simp [splitSep, hc, ih hn]

/-- No element of a path has a separator. -/
theorem splitSep_elems (s : Str) : ∀ e ∈ splitSep s, '/' ∉ e := by
  induction s with
  | nil => simp [splitSep]
  | cons c s ih =>
    by_cases h : c = '/'
    · simp only [splitSep, h, if_true]
      intro e he
      rcases List.mem_cons.mp he with rfl | he
      · simp
      · exact ih e he
    · cases hs : splitSep s with
      | nil => exact absurd hs (splitSep_ne_nil s)
      | cons x xs =>
        rw [hs] at ih
        simp only [splitSep, h, if_false, hs]
        intro e he
        rcases List.mem_cons.mp he with rfl | he
        · intro hm
          rcases List.mem_cons.mp hm with e1 | e1
          · exact h e1.symm
          · exact ih x (List.mem_cons_self _ _) e1
        · exact ih e (List.mem_cons_of_mem _ he)

/-- Elements without separator are recovered from the path written for them. -/
theorem splitSep_joinSep (xs : List Str) (hne : xs ≠ []) (h : ∀ x ∈ xs, '/' ∉ x) :
    splitSep (joinSep xs) = xs := by
  induction xs with
  | nil => exact absurd rfl hne
  | cons x rest ih =>
    cases rest with
    | nil => exact splitSep_noSep x (h x (List.mem_cons_self _ _))
    | cons y rest =>
      have hx := h x (List.mem_cons_self _ _)
      have ih2 := ih (by simp) (fun z hz => h z (List.mem_cons_of_mem _ hz))
      simp only [joinSep]
      rw [splitSep_append, splitSep_noSep x hx]
      simp only [joinSep] at ih2
      rw [ih2]
      rfl

/-- The path written for elements followed by one more element. -/
theorem joinSep_concat (xs : List Str) (n : Str) :
    joinSep (xs ++ [n]) = if xs = [] then n else joinSep xs ++ '/' :: n := by
  induction xs with
  | nil => simp [joinSep]
  | cons x rest ih =>
    cases rest with
    | nil => simp [joinSep]
    | cons y rest =>
      show x ++ '/' :: joinSep ((y :: rest) ++ [n]) = _
      rw [ih]
      simp [joinSep]

/-- One step of the scan keeps the shape of the kept elements. -/
theorem cleanStep_preserves (r : Bool) (S : List Str) (e : Str)
    (hS : CleanStack r S) (he : '/' ∉ e) : CleanStack r (cleanStep r S e) := by
  unfold cleanStep
  split
  · exact hS
  · rename_i h1
    simp only [not_or] at h1
    split
    · rename_i h2
      cases S with
      | nil =>
        cases r
        · simp [CleanStack, dotdot, dot]
        · simp [CleanStack]
      | cons top rest =>
        simp only
        split
        · exact hS.2.2.2.2
        · rename_i h3
          simp only [ne_eq, not_not] at h3
          split
          · exact hS
          · rename_i h4
            refine ⟨by simp [dotdot], by simp [dotdot], by simp [dotdot, dot], ?_, hS⟩
            intro _
            refine ⟨by simpa using h4, ?_⟩
            intro x hx
            rcases List.mem_cons.mp hx with rfl | hx
            · exact h3
            · exact (hS.2.2.2.1 h3).2 x hx
    · rename_i h2
      exact ⟨he, h1.1, h1.2, fun h => absurd h h2, hS⟩

/-- The scan keeps the shape of the kept elements. -/
theorem foldl_cleanStep_preserves (r : Bool) (es : List Str) (S : List Str)
    (hS : CleanStack r S) (hes : ∀ e ∈ es, '/' ∉ e) :
    CleanStack r (es.foldl (cleanStep r) S) := by
  induction es generalizing S with
  | nil => exact hS
  | cons e es ih =>
    simp only [List.foldl_cons]
    exact ih _ (cleanStep_preserves r S e hS (hes e (List.mem_cons_self _ _)))
      (fun x hx => hes x (List.mem_cons_of_mem _ hx))

/-- The elements `filepath.Clean` keeps have the shape `CleanStack`. -/
theorem stackOf_clean (p : Str) : CleanStack (rootedOf p) (stackOf p) :=
  foldl_cleanStep_preserves _ _ _ trivial (splitSep_elems p)

/-- Scanning the top element of kept elements onto the others gives them back. -/
theorem cleanStep_top (r : Bool) (top : Str) (rest : List Str)
    (hS : CleanStack r (top :: rest)) : cleanStep r rest top = top :: rest := by
  obtain ⟨_, h1, h2, h3, _⟩ := hS
  unfold cleanStep
  rw [if_neg (by simp [h1, h2])]
  split
  · rename_i h4
    obtain ⟨hr, hall⟩ := h3 h4
    cases rest with
    | nil => simp [hr, h4]
    | cons t rest =>
      have ht : t = dotdot := hall t (List.mem_cons_self _ _)
      simp [ht, hr, h4]
  · rfl

/-- Scanning kept elements again keeps all of them: cleaning is idempotent. -/
theorem foldl_cleanStep_reverse (r : Bool) (S : List Str) (hS : CleanStack r S) :
    S.reverse.foldl (cleanStep r) [] = S := by
  induction S with
  | nil => rfl
  | cons top rest ih =>
    rw [List.reverse_cons, List.foldl_append, ih hS.2.2.2.2]
    simp only [List.foldl_cons, List.foldl_nil]
    exact cleanStep_top r top rest hS

/-- The function `Clean` writes the kept elements of the path. -/
theorem Clean_eq_render (p : Str) : Clean p = render (rootedOf p) (stackOf p) := by
  unfold Clean
  split
  · rename_i h
    subst h
    rfl
  · rfl

/-- Kept elements have no separator, are not empty and are not `.`. -/
theorem CleanStack_mem (r : Bool) (S : List Str) (hS : CleanStack r S) :
    ∀ x ∈ S, '/' ∉ x ∧ x ≠ [] ∧ x ≠ dot := by
  induction S with
  | nil => simp
  | cons top rest ih =>
    intro x hx
    rcases List.mem_cons.mp hx with rfl | hx
    · exact ⟨hS.1, hS.2.1, hS.2.2.1⟩
    · exact ih hS.2.2.2.2 x hx

/-- Only the empty list of non-empty elements is written as the empty path. -/
theorem joinSep_eq_nil (xs : List Str) (h : ∀ x ∈ xs, x ≠ []) (hj : joinSep xs = []) :
    xs = [] := by
  cases xs with
  | nil => rfl
  | cons x rest =>
    cases rest with
    | nil => exact absurd hj (h x (List.mem_cons_self _ _))
    | cons y rest => simp [joinSep] at hj

/-- A path written for elements that are not empty does not begin with a separator. -/
theorem joinSep_head (xs : List Str) (t : Str) (hne : xs ≠ []) (h : ∀ x ∈ xs, '/' ∉ x ∧ x ≠ []) :
    (joinSep xs ++ t).head? ≠ some '/' := by
  cases xs with
  | nil => exact absurd rfl hne
  | cons x rest =>
    obtain ⟨hx, hx0⟩ := h x (List.mem_cons_self _ _)
    cases x with
    | nil => exact absurd rfl hx0
    | cons c cs =>
      have hc : c ≠ '/' := fun e => hx (by simp [e])
      cases rest with
      | nil => simpa [joinSep] using hc
      | cons y rest => simpa [joinSep] using hc

/-- A cleaned path is not empty. -/
theorem render_ne_nil (r : Bool) (S : List Str) : render r S ≠ [] := by
  unfold render
  split
  · simp
  · split
    · simp [dot]
    · assumption

/-- The cleaned path of at least one kept element. -/
theorem render_of_ne_nil (r : Bool) (S : List Str) (hS : CleanStack r S) (hne : S ≠ []) :
    render r S = (if r then ['/'] else []) ++ joinSep S.reverse := by
  have hj : joinSep S.reverse ≠ [] := by
    intro hj
    have := joinSep_eq_nil S.reverse
      (fun x hx => (CleanStack_mem r S hS x (List.mem_reverse.mp hx)).2.1) hj
    exact hne (by simpa using this)
  unfold render
  cases r <;> simp [hj]

/-- A cleaned path, extended or not, is rooted exactly when asked to be. -/
theorem rootedOf_render (r : Bool) (S : List Str) (t : Str) (hS : CleanStack r S) :
    rootedOf (render r S ++ t) = r := by
  by_cases hne : S = []
  · subst hne
    cases r <;> simp [render, rootedOf, joinSep, dot]
  · rw [render_of_ne_nil r S hS hne]
    cases r
    · have := joinSep_head S.reverse t (by simpa using hne)
        (fun x hx => ⟨(CleanStack_mem false S hS x (List.mem_reverse.mp hx)).1,
          (CleanStack_mem false S hS x (List.mem_reverse.mp hx)).2.1⟩)
      simpa [rootedOf] using this
    · simp [rootedOf]

/-- Scanning a cleaned path gives the kept elements it was written for. -/
theorem foldl_splitSep_render (r : Bool) (S : List Str) (hS : CleanStack r S) :
    (splitSep (render r S)).foldl (cleanStep r) [] = S := by
  by_cases hne : S = []
  · subst hne
    cases r <;> simp [render, joinSep, splitSep, dot, cleanStep]
  · rw [render_of_ne_nil r S hS hne]
    have hsp : splitSep (joinSep S.reverse) = S.reverse :=
      splitSep_joinSep S.reverse (by simpa using hne)
        (fun x hx => (CleanStack_mem r S hS x (List.mem_reverse.mp hx)).1)
    cases r
    · simp only [Bool.false_eq_true, if_false, List.nil_append]
      rw [hsp]
      exact foldl_cleanStep_reverse false S hS
    · have h1 : splitSep ((if true = true then ['/'] else []) ++ joinSep S.reverse) =
          [] :: S.reverse := by
        simp [splitSep, hsp]
      have h2 : cleanStep true [] [] = [] := by simp [cleanStep]
      rw [h1, List.foldl_cons, h2]
      exact foldl_cleanStep_reverse true S hS

/-- Cleaning a cleaned path followed by one more element. -/
theorem Clean_render_append (r : Bool) (S : List Str) (e : Str) (hS : CleanStack r S)
    (he : '/' ∉ e) : Clean (render r S ++ '/' :: e) = render r (cleanStep r S e) := by
  rw [Clean_eq_render, rootedOf_render r S _ hS]
  unfold stackOf
  rw [rootedOf_render r S _ hS, splitSep_append, List.foldl_append,
    foldl_splitSep_render r S hS, splitSep_noSep e he]
  rfl

/-- The scan keeps a file name. -/
theorem cleanStep_name (r : Bool) (S : List Str) (n : Str) (hn : IsName n) :
    cleanStep r S n = n :: S := by
  obtain ⟨_, h1, h2, h3⟩ := hn
  simp [cleanStep, h1, h2, h3]

/-- The directory part of a path that ends in bytes without separator. -/
theorem rdropWhile_append_noSep (pre n : Str) (hn : '/' ∉ n) :
    (pre ++ n).rdropWhile (fun c => decide (c ≠ '/')) =
      pre.rdropWhile (fun c => decide (c ≠ '/')) := by
  induction n using List.reverseRecOn with
  | nil => simp
  | append_singleton n c ih =>
    have hc : c ≠ '/' := fun e => hn (by simp [e])
    have hn2 : '/' ∉ n := fun e => hn (by simp [e])
    rw [← List.append_assoc, List.rdropWhile_concat_pos _ _ _ (by simpa using hc)]
    exact ih hn2

/-- The last element of a path that ends in bytes without separator. -/
theorem rtakeWhile_append_noSep (pre n : Str) (hn : '/' ∉ n) :
    (pre ++ n).rtakeWhile (fun c => decide (c ≠ '/')) =
      pre.rtakeWhile (fun c => decide (c ≠ '/')) ++ n := by
  induction n using List.reverseRecOn with
  | nil => simp
  | append_singleton n c ih =>
    have hc : c ≠ '/' := fun e => hn (by simp [e])
    have hn2 : '/' ∉ n := fun e => hn (by simp [e])
    rw [← List.append_assoc, List.rtakeWhile_concat_pos _ _ _ (by simpa using hc), ih hn2,
      List.append_assoc]

/-- The directory of a path made of a directory part and a last element. -/
theorem Dir_append (pre n : Str) (hpre : pre = [] ∨ ∃ q, pre = q ++ ['/'])
    (hn : '/' ∉ n) : Dir (pre ++ n) = Clean pre := by
  unfold Dir
  rw [rdropWhile_append_noSep pre n hn]
  rcases hpre with h | ⟨q, h⟩
  · subst h
    simp
  · subst h
    rw [List.rdropWhile_concat_neg _ _ _ (by simp)]

/-- The last element of a path made of a directory part and a last element. -/
theorem Base_append (pre n : Str) (hpre : pre = [] ∨ ∃ q, pre = q ++ ['/'])
    (hn : '/' ∉ n) (hn0 : n ≠ []) : Base (pre ++ n) = n := by
  unfold Base
  have hne : pre ++ n ≠ [] := by simp [hn0]
  rw [if_neg hne]
  have hdrop : (pre ++ n).rdropWhile (fun c => decide (c = '/')) = pre ++ n := by
    rcases List.eq_nil_or_concat n with h0 | ⟨l, c, hl⟩
    · exact absurd h0 hn0
    · rw [List.concat_eq_append] at hl
      subst hl
      have hc : c ≠ '/' := fun e => hn (by simp [e])
      rw [← List.append_assoc, List.rdropWhile_concat_neg _ _ _ (by simpa using hc)]
  simp only [hdrop]
  rw [rtakeWhile_append_noSep pre n hn]
  have htake : pre.rtakeWhile (fun c => decide (c ≠ '/')) = [] := by
    rcases hpre with h | ⟨q, h⟩
    · subst h
      simp
    · subst h
      rw [List.rtakeWhile_concat_neg _ _ _ (by simp)]
  rw [htake]
  simp [hn0]

/-- The path written for a stack with a name on top: the directory part ends in
a separator or is empty, and the name follows. -/
theorem render_push (r : Bool) (S : List Str) (n : Str) (hS : CleanStack r S) (hn : IsName n) :
    ∃ pre, render r (n :: S) = pre ++ n ∧ (pre = [] ∨ ∃ q, pre = q ++ ['/']) ∧
      Clean pre = render r S := by
  have hS2 : CleanStack r (n :: S) :=
    ⟨hn.1, hn.2.1, hn.2.2.1, fun h => absurd h hn.2.2.2, hS⟩
  rw [render_of_ne_nil r (n :: S) hS2 (by simp), List.reverse_cons, joinSep_concat]
  by_cases hne : S = []
  · subst hne
    cases r
    · exact ⟨[], by simp, Or.inl rfl, by decide⟩
    · exact ⟨['/'], by simp, Or.inr ⟨[], rfl⟩, by decide⟩
  · refine ⟨render r S ++ ['/'], ?_, Or.inr ⟨_, rfl⟩, ?_⟩
    · rw [render_of_ne_nil r S hS hne]
      simp [hne]
    · have := Clean_render_append r S [] hS (by simp)
      simpa [cleanStep] using this

/-- The path `Join` makes of a cleaned directory and a file name has that
directory and that name. -/
theorem Join_render_name (r : Bool) (S : List Str) (n : Str) (hS : CleanStack r S)
    (hn : IsName n) :
    Dir (Join (render r S) n) = render r S ∧ Base (Join (render r S) n) = n := by
  have hj : Join (render r S) n = render r (n :: S) := by
    unfold Join
    rw [if_pos (render_ne_nil r S), Clean_render_append r S n hS hn.1, cleanStep_name r S n hn]
  obtain ⟨pre, hpre, hend, hclean⟩ := render_push r S n hS hn
  rw [hj, hpre]
  exact ⟨(Dir_append pre n hend hn.1).trans hclean, Base_append pre n hend hn.1 hn.2.1⟩

/-- The result of `Dir` is a cleaned path. -/
theorem Dir_eq_render (p : Str) : ∃ r S, Dir p = render r S ∧ CleanStack r S :=
  ⟨_, _, Clean_eq_render _, stackOf_clean _⟩

/-- The loop of `Ext` returns a suffix of the bytes it is given. -/
theorem extRev_suffix (r acc : Str) : extRev r acc <:+ r.reverse ++ acc := by
  induction r generalizing acc with
  | nil => exact List.nil_suffix
  | cons c cs ih =>
    unfold extRev
    split
    · exact List.nil_suffix
    · split
      · rename_i h
        subst h
        exact ⟨cs.reverse, by simp⟩
      · have := ih (c :: acc)
        simpa using this

/-- The loop of `Ext` returns nothing when there is no dot. -/
theorem extRev_no_dot (r acc : Str) (h : '.' ∉ r) : extRev r acc = [] := by
  induction r generalizing acc with
  | nil => rfl
  | cons c cs ih =>
    have hc : c ≠ '.' := fun e => h (by simp [e])
    have hcs : '.' ∉ cs := fun e => h (List.mem_cons_of_mem _ e)
    unfold extRev
    split
    · rfl
    · exact ih _ hcs

/-- The extension is a suffix of the name. -/
theorem Ext_suffix (n : Str) : Ext n <:+ n := by
  have := extRev_suffix n.reverse []
  simpa [Ext] using this

/-- The name without extension, followed by the extension, is the name. -/
theorem StripExt_append_Ext (n : Str) : StripExt n ++ Ext n = n := by
  obtain ⟨t, ht⟩ := Ext_suffix n
  have hlen : n.length - (Ext n).length = t.length := by
    have := congrArg List.length ht
    simp only [List.length_append] at this
    omega
  have htake : n.take t.length = t := by
    conv_lhs => rw [← ht]
    exact List.take_left _ _
  unfold StripExt
  rw [hlen, htake]
  exact ht

/-- The last element of a path has no separator, unless the path is the root. -/
theorem Base_noSep (p : Str) (h : Base p ≠ ['/']) : '/' ∉ Base p := by
  unfold Base at h ⊢
  by_cases h1 : p = []
  · simp [h1, dot]
  · simp only [h1, if_false] at h ⊢
    by_cases h2 : (p.rdropWhile (fun c => decide (c = '/'))).rtakeWhile
        (fun c => decide (c ≠ '/')) = []
    · rw [if_pos h2] at h
      exact absurd rfl h
    · rw [if_neg h2]
      intro hm
      have := List.mem_rtakeWhile_imp hm
      simp at this

/-- The file name `backupFileName` gives to `Join` is a file name when the
original file name and the formatted time have no separator. -/
theorem backupName_isName (b ts : Str) (hb : '/' ∉ b) (hts : '/' ∉ ts) :
    IsName (StripExt b ++ '-' :: (ts ++ Ext b)) := by
  have hs : '/' ∉ StripExt b := fun hm => hb (List.mem_of_mem_take hm)
  have he : '/' ∉ Ext b := fun hm => hb ((Ext_suffix b).subset hm)
  have hmem : '-' ∈ StripExt b ++ '-' :: (ts ++ Ext b) := by simp
  refine ⟨?_, by simp, ?_, ?_⟩
  · simp only [List.mem_append, List.mem_cons, not_or]
    exact ⟨hs, by decide, hts, he⟩
  · intro h
    rw [h] at hmem
    simp [dot] at hmem
  · intro h
    rw [h] at hmem
    simp [dotdot] at hmem

/-- The backup path lies in the directory of the file and its name is the
backup name. -/
theorem backupFileName_Dir_Base (d : Deps Flags Entry) (f : FileReceiver Flags) (now : Time)
    (hname : Base f.filename ≠ ['/'])
    (hfmt : '/' ∉ d.formatBackupTime (activeTime f.isUTC now)) :
    Dir (backupFileName d f now) = Dir f.filename ∧
    Base (backupFileName d f now) =
      StripExt (Base f.filename) ++
        '-' :: (d.formatBackupTime (activeTime f.isUTC now) ++ Ext (Base f.filename)) := by
  obtain ⟨r, S, hdir, hS⟩ := Dir_eq_render f.filename
  have hn := backupName_isName (Base f.filename) _ (Base_noSep _ hname) hfmt
  have := Join_render_name r S _ hS hn
  unfold backupFileName
  simp only
  rw [hdir]
  exact this

/-- The backup path is not the path of the file. -/
theorem backupFileName_ne_filename (d : Deps Flags Entry) (f : FileReceiver Flags) (now : Time)
    (hname : Base f.filename ≠ ['/'])
    (hfmt : '/' ∉ d.formatBackupTime (activeTime f.isUTC now)) :
    backupFileName d f now ≠ f.filename := by
  intro h
  have hb := (backupFileName_Dir_Base d f now hname hfmt).2
  rw [h] at hb
  have hlen := congrArg List.length hb
  have hlen2 := congrArg List.length (StripExt_append_Ext (Base f.filename))
  simp only [List.length_append, List.length_cons] at hlen hlen2
  omega

/-- C9: `backupFileName` returns a path in the directory of the original file;
its file name is `baseName`, then `-`, then the formatted time, then the
extension, where `baseName` followed by the extension is the original file
name and the extension is empty when the name has no dot; the time is taken in
UTC when `isUTC` is set and as the clock gives it otherwise. -/
theorem backupFileName_spec (d : Deps Flags Entry) (f : FileReceiver Flags) (now : Time)
    (hname : Base f.filename ≠ ['/'])
    (hfmt : '/' ∉ d.formatBackupTime (if f.isUTC then now.UTC else now)) :
    Dir (backupFileName d f now) = Dir f.filename ∧
    Base (backupFileName d f now) =
      StripExt (Base f.filename) ++
        '-' :: (d.formatBackupTime (if f.isUTC then now.UTC else now) ++
          Ext (Base f.filename)) ∧
    StripExt (Base f.filename) ++ Ext (Base f.filename) = Base f.filename ∧
    ('.' ∉ Base f.filename → Ext (Base f.filename) = []) := by
  have h := backupFileName_Dir_Base d f now hname hfmt
  refine ⟨h.1, h.2, StripExt_append_Ext _, ?_⟩
  intro hdot
  exact extRev_no_dot _ _ (fun hm => hdot (List.mem_reverse.mp hm))

/-- Witness of C9: the backup of `logs/app.log` on 2 June 2017 is
`logs/app-2017-6-2.log` with the date layout of the concrete collaborators. -/
theorem backupFileName_spec_witness :
    backupFileName demoDeps { blankReceiver with filename := demoPath } (onDate 2017 6 2) =
      "logs/app-2017-6-2.log".toList ∧
    Dir (backupFileName demoDeps { blankReceiver with filename := demoPath } (onDate 2017 6 2)) =
      Dir demoPath :=
  ⟨by decide,
   (backupFileName_spec demoDeps { blankReceiver with filename := demoPath } (onDate 2017 6 2)
      (by decide) (by decide)).1⟩

/-! ### Runs of `Log` calls -/

/-- A record is not empty. -/
theorem record_ne_nil (m : Str) : record m ≠ [] := by
  intro h
  have := record_getLast m
  rw [h] at this
  simp at this

/-- A `Log` call whose file is open after the rotation check and whose write is
complete: the record goes to the end of the file and is counted. -/
theorem Log_complete_write (d : Deps Flags Entry) (io : Sys) (now : Time) (fs : FS)
    (f : FileReceiver Flags) (entry : Entry) (r : Res Flags)
    (hr : rotateIfDue d io now fs f = r) (hopen : r.f.out.closed = false)
    (hcap : (record (d.applyFormatter r.f.formatter r.f.flags entry)).length ≤ io.writeCap) :
    Log d io now fs f entry =
      (r.fs.append r.f.out.path (record (d.applyFormatter r.f.formatter r.f.flags entry)),
       { r.f with stats :=
         { bytes := r.f.stats.bytes +
             ((record (d.applyFormatter r.f.formatter r.f.flags entry)).length : Int),
           lines := r.f.stats.lines + 1 } }) := by
  subst hr
  have hlen : (record (d.applyFormatter (rotateIfDue d io now fs f).f.formatter
      (rotateIfDue d io now fs f).f.flags entry)).length ≠ 0 := by
    simpa using record_ne_nil _
  unfold Log Write
  simp only [hopen, Bool.false_eq_true, if_false, Nat.min_eq_right hcap,
    List.take_of_length_le hcap, hlen]

/-- A `Log` call that does not rotate, on an open file, with a complete write. -/
theorem Log_no_rotate (d : Deps Flags Entry) (io : Sys) (now : Time) (fs : FS)
    (f0 : FileReceiver Flags) (entry : Entry) (s : receiverStats) (c : Str)
    (hout : f0.out = { path := f0.filename, closed := false })
    (hrot : isRotate { f0 with stats := s } now = false)
    (hcap : (record (d.applyFormatter f0.formatter f0.flags entry)).length ≤ io.writeCap)
    (hfile : fs.files f0.filename = some c) :
    (Log d io now fs { f0 with stats := s } entry).2 =
      { f0 with stats :=
        { bytes := s.bytes + ((record (d.applyFormatter f0.formatter f0.flags entry)).length : Int),
          lines := s.lines + 1 } } ∧
    (Log d io now fs { f0 with stats := s } entry).1.files f0.filename =
      some (c ++ record (d.applyFormatter f0.formatter f0.flags entry)) ∧
    ∀ p, p ≠ f0.filename →
      (Log d io now fs { f0 with stats := s } entry).1.files p = fs.files p := by
  have hr : rotateIfDue d io now fs { f0 with stats := s } =
      ⟨fs, { f0 with stats := s }, none⟩ := by
    unfold rotateIfDue
    rw [hrot]
    rfl
  have hopen : ({ f0 with stats := s } : FileReceiver Flags).out.closed = false := by
    show f0.out.closed = false
    rw [hout]
  rw [Log_complete_write d io now fs _ entry _ hr hopen hcap]
  refine ⟨rfl, ?_, ?_⟩
  · simp [FS.append, hout, hfile]
  · intro p hp
    simp [FS.append, hout, hp]

/-- A `Log` call that rotates an open file when every system call succeeds:
the old content is at the backup path, the file holds the new record only, and
the counters are those of the new record. -/
theorem Log_rotate (d : Deps Flags Entry) (io : Sys) (now : Time) (fs : FS)
    (f0 : FileReceiver Flags) (entry : Entry) (s : receiverStats) (c : Str)
    (hout : f0.out = { path := f0.filename, closed := false })
    (hclosed : f0.isClosed = false)
    (hrot : isRotate { f0 with stats := s } now = true)
    (hok : CallOk d f0 (io, now, entry))
    (hfile : fs.files f0.filename = some c)
    (hne : backupFileName d f0 now ≠ f0.filename) :
    (Log d io now fs { f0 with stats := s } entry).2 =
      { f0 with stats :=
        { bytes := ((record (d.applyFormatter f0.formatter f0.flags entry)).length : Int),
          lines := 1 } } ∧
    (Log d io now fs { f0 with stats := s } entry).1.files f0.filename =
      some (record (d.applyFormatter f0.formatter f0.flags entry)) ∧
    (Log d io now fs { f0 with stats := s } entry).1.files (backupFileName d f0 now) = some c ∧
    ∀ p, p ≠ f0.filename → p ≠ backupFileName d f0 now →
      (Log d io now fs { f0 with stats := s } entry).1.files p = fs.files p := by
  obtain ⟨hren, hop, hst, hcap⟩ := hok
  simp only at hren hop hst hcap
  have hgone : (fs.rename f0.filename (backupFileName d f0 now)).files f0.filename = none := by
    simp [FS.rename, Ne.symm hne]
  have hr : rotateIfDue d io now fs { f0 with stats := s } =
      ⟨(fs.rename f0.filename (backupFileName d f0 now)).create f0.filename,
       { f0 with stats := { bytes := 0, lines := 0 } }, none⟩ := by
    unfold rotateIfDue
    rw [hrot, if_pos rfl]
    unfold rotateFile
    have hex : fs.exists ({ f0 with stats := s } : FileReceiver Flags).filename = true := by
      show fs.exists f0.filename = true
      simp [FS.exists, hfile]
    rw [if_pos hex]
    simp only [hren, Bool.false_eq_true, if_false]
    unfold openFile
    simp only [hop, hst, Bool.false_eq_true, if_false]
    have hb : backupFileName d (close { f0 with stats := s }) now = backupFileName d f0 now := by
      simp [close, hclosed, backupFileName]
    have hfn : (close { f0 with stats := s }).filename = f0.filename := by
      simp [close, hclosed]
    rw [hb, hfn]
    have hcontent : ((fs.rename f0.filename (backupFileName d f0 now)).create
        f0.filename).content f0.filename = [] := by
      simp [FS.content, FS.create, hgone]
    rw [hcontent]
    simp [close, hclosed, LineCntr, hout]
  have hopen : f0.out.closed = false := by rw [hout]
  rw [Log_complete_write d io now fs _ entry _ hr hopen hcap]
  refine ⟨?_, ?_, ?_, ?_⟩
  · simp
  · simp [FS.append, FS.create, hgone, hout]
  · simp [FS.append, FS.create, hne, FS.rename, hfile, hout]
  · intro p hp hpb
    simp [FS.append, FS.create, FS.rename, hp, hpb, hout]

/-- The records of two runs, one after the other. -/
theorem written_append (d : Deps Flags Entry) (f : FileReceiver Flags)
    (a b : List (Sys × Time × Entry)) :
    written d f (a ++ b) = written d f a ++ written d f b := by
  induction a with
  | nil => rfl
  | cons x a ih => simp [written, ih]

/-- A run of `Log` calls followed by another run. -/
theorem LogAll_append (d : Deps Flags Entry) (a b : List (Sys × Time × Entry))
    (s : FS × FileReceiver Flags) : LogAll d (a ++ b) s = LogAll d b (LogAll d a s) := by
  induction a generalizing s with
  | nil => rfl
  | cons x a ih =>
    obtain ⟨io, now, entry⟩ := x
    simp only [List.cons_append, LogAll]
    exact ih _

/-- A run of `Log` calls none of which rotates, on an open file, with complete
writes: the records are appended in order and counted, and no other file
changes. -/
theorem LogAll_no_rotate (d : Deps Flags Entry) (f0 : FileReceiver Flags)
    (hout : f0.out = { path := f0.filename, closed := false })
    (calls : List (Sys × Time × Entry)) :
    ∀ (fs : FS) (c : Str) (B L : Int),
      fs.files f0.filename = some c →
      (∀ x ∈ calls,
        (record (d.applyFormatter f0.formatter f0.flags x.2.2)).length ≤ x.1.writeCap) →
      (∀ pre x post, calls = pre ++ x :: post →
        isRotate { f0 with stats :=
          { bytes := B + ((written d f0 pre).length : Int),
            lines := L + (pre.length : Int) } } x.2.1 = false) →
      (LogAll d calls (fs, { f0 with stats := { bytes := B, lines := L } })).2 =
        { f0 with stats :=
          { bytes := B + ((written d f0 calls).length : Int),
            lines := L + (calls.length : Int) } } ∧
      (LogAll d calls (fs, { f0 with stats := { bytes := B, lines := L } })).1.files
        f0.filename = some (c ++ written d f0 calls) ∧
      ∀ p, p ≠ f0.filename →
        (LogAll d calls (fs, { f0 with stats := { bytes := B, lines := L } })).1.files p =
          fs.files p := by
  induction calls with
  | nil =>
    intro fs c B L hfile _ _
    simp [LogAll, written, hfile]
  | cons x rest ih =>
    intro fs c B L hfile hcap hnr
    obtain ⟨io, now, entry⟩ := x
    have h0 : isRotate { f0 with stats := { bytes := B, lines := L } } now = false := by
      have := hnr [] (io, now, entry) rest rfl
      simpa [written] using this
    have hc0 := hcap (io, now, entry) (List.mem_cons_self _ _)
    simp only at hc0
    obtain ⟨s1, s2, s3⟩ := Log_no_rotate d io now fs f0 entry ⟨B, L⟩ c hout h0 hc0 hfile
    have hlog : Log d io now fs { f0 with stats := { bytes := B, lines := L } } entry =
        ((Log d io now fs { f0 with stats := { bytes := B, lines := L } } entry).1,
         { f0 with stats :=
           { bytes := B + ((record (d.applyFormatter f0.formatter f0.flags entry)).length : Int),
             lines := L + 1 } }) :=
      Prod.ext rfl s1
    have hnr2 : ∀ pre x post, rest = pre ++ x :: post →
        isRotate { f0 with stats :=
          { bytes := B + ((record (d.applyFormatter f0.formatter f0.flags entry)).length : Int) +
              ((written d f0 pre).length : Int),
            lines := L + 1 + (pre.length : Int) } } x.2.1 = false := by
      intro pre x post hsplit
      have := hnr ((io, now, entry) :: pre) x post (by rw [hsplit]; rfl)
      simp only [written, List.length_append, List.length_cons, Nat.cast_add, Nat.cast_one]
        at this
      have e1 : B + ((record (d.applyFormatter f0.formatter f0.flags entry)).length : Int) +
          ((written d f0 pre).length : Int) =
          B + (((record (d.applyFormatter f0.formatter f0.flags entry)).length : Int) +
            ((written d f0 pre).length : Int)) := by ring
      have e2 : L + 1 + (pre.length : Int) = L + ((pre.length : Int) + 1) := by ring
      rw [e1, e2]
      exact this
    obtain ⟨r1, r2, r3⟩ := ih _ (c ++ record (d.applyFormatter f0.formatter f0.flags entry))
      (B + ((record (d.applyFormatter f0.formatter f0.flags entry)).length : Int)) (L + 1) s2
      (fun x hx => hcap x (List.mem_cons_of_mem _ hx)) hnr2
    show (LogAll d rest (Log d io now fs { f0 with stats := { bytes := B, lines := L } }
        entry)).2 = _ ∧
      (LogAll d rest (Log d io now fs { f0 with stats := { bytes := B, lines := L } }
        entry)).1.files f0.filename = _ ∧
      ∀ p, p ≠ f0.filename →
        (LogAll d rest (Log d io now fs { f0 with stats := { bytes := B, lines := L } }
          entry)).1.files p = fs.files p
    rw [hlog]
    refine ⟨?_, ?_, ?_⟩
    · rw [r1]
      simp only [written, List.length_append, List.length_cons, Nat.cast_add, Nat.cast_one]
      congr 2 <;> ring
    · rw [r2]
      simp [written]
    · intro p hp
      rw [r3 p hp]
      exact s3 p hp

/-- The answer of `isRotate` under the "lines" policy. -/
theorem isRotate_of_lines (f : FileReceiver Flags) (now : Time)
    (h : f.rotatePolicy = policyLines) :
    isRotate f now = (decide (f.maxLines ≠ 0) && decide (f.stats.lines ≥ f.maxLines)) := by
  simp [isRotate, h, policy_names_ne.1]

/-- The answer of `isRotate` under the "size" policy. -/
theorem isRotate_of_size (f : FileReceiver Flags) (now : Time)
    (h : f.rotatePolicy = policySize) :
    isRotate f now = (decide (f.maxSize ≠ 0) && decide (f.stats.bytes ≥ f.maxSize)) := by
  simp [isRotate, h, policy_names_ne.2.1, policy_names_ne.2.2]

/-- The records depend on the formatter and the flags of the receiver only. -/
theorem written_congr (d : Deps Flags Entry) (f g : FileReceiver Flags)
    (h1 : f.formatter = g.formatter) (h2 : f.flags = g.flags)
    (calls : List (Sys × Time × Entry)) : written d f calls = written d g calls := by
  induction calls with
  | nil => rfl
  | cons x rest ih => simp [written, h1, h2, ih]

/-- The state after a successful `openFile` on an absent or empty file. -/
theorem openFile_fresh (io : Sys) (fs : FS) (f : FileReceiver Flags)
    (hempty : fs.content f.filename = []) (hok : (openFile io fs f).err = none) :
    (openFile io fs f).f =
      { f with out := { path := f.filename, closed := false }, isClosed := false,
               stats := { bytes := 0, lines := 0 } } ∧
    (openFile io fs f).fs.files f.filename = some [] ∧
    ∀ p, p ≠ f.filename → (openFile io fs f).fs.files p = fs.files p := by
  have hfile : (fs.create f.filename).files f.filename = some [] := by
    unfold FS.content at hempty
    cases h : fs.files f.filename with
    | none => simp [FS.create, h]
    | some c =>
      rw [h] at hempty
      simp only [Option.getD_some] at hempty
      simp [FS.create, h, hempty]
  unfold openFile at hok ⊢
  by_cases h1 : io.openFails = true
  · simp [h1] at hok
  · by_cases h2 : io.statFails = true
    · simp [h1, h2] at hok
    · simp only [h1, h2, if_false]
      refine ⟨?_, hfile, ?_⟩
      · simp [FS.content, hfile, LineCntr]
      · intro p hp
        simp [FS.create, hp]

/-- C4: under the "lines" policy with `maxLines = n > 0`, from a freshly opened
empty file and with every write, rename and open succeeding, none of the first
`n` `Log` calls rotates and the next call rotates before it writes: afterwards
the backup file holds the first `n` records in order and the active file holds
the record of the last call only. -/
theorem Log_lines_rotation (d : Deps Flags Entry) (io0 : Sys) (fs0 : FS)
    (f0 : FileReceiver Flags) (n : Nat) (calls : List (Sys × Time × Entry))
    (last : Sys × Time × Entry)
    (hn : 0 < n) (hpol : f0.rotatePolicy = policyLines) (hmax : f0.maxLines = (n : Int))
    (hempty : fs0.content f0.filename = []) (hopen : (openFile io0 fs0 f0).err = none)
    (hlen : calls.length = n) (hok : ∀ x ∈ calls ++ [last], CallOk d f0 x)
    (hname : Base f0.filename ≠ ['/'])
    (hfmt : '/' ∉ d.formatBackupTime (if f0.isUTC then last.2.1.UTC else last.2.1)) :
    (∀ pre x post, calls = pre ++ x :: post →
      isRotate (LogAll d pre ((openFile io0 fs0 f0).fs, (openFile io0 fs0 f0).f)).2 x.2.1 =
        false) ∧
    isRotate (LogAll d calls ((openFile io0 fs0 f0).fs, (openFile io0 fs0 f0).f)).2 last.2.1 =
      true ∧
    (LogAll d (calls ++ [last]) ((openFile io0 fs0 f0).fs, (openFile io0 fs0 f0).f)).1.files
      (backupFileName d f0 last.2.1) = some (written d f0 calls) ∧
    (LogAll d (calls ++ [last]) ((openFile io0 fs0 f0).fs, (openFile io0 fs0 f0).f)).1.files
      f0.filename = some (record (d.applyFormatter f0.formatter f0.flags last.2.2)) := by
  obtain ⟨hf, hfile, _⟩ := openFile_fresh io0 fs0 f0 hempty hopen
  generalize (openFile io0 fs0 f0).fs = fs1 at hfile ⊢
  rw [hf]
  generalize hF :
    ({ f0 with out := ⟨f0.filename, false⟩, isClosed := false } : FileReceiver Flags) = F
  have hFn : F.filename = f0.filename := by rw [← hF]
  have hFout : F.out = { path := F.filename, closed := false } := by rw [← hF]
  have hFc : F.isClosed = false := by rw [← hF]
  have hFpol : F.rotatePolicy = policyLines := by rw [← hF]; exact hpol
  have hFmax : F.maxLines = (n : Int) := by rw [← hF]; exact hmax
  have hFfmt : F.formatter = f0.formatter := by rw [← hF]
  have hFflags : F.flags = f0.flags := by rw [← hF]
  have hFutc : F.isUTC = f0.isUTC := by rw [← hF]
  have hstart :
      ({ f0 with out := ⟨f0.filename, false⟩, isClosed := false, stats := ⟨0, 0⟩ } :
        FileReceiver Flags) = { F with stats := { bytes := 0, lines := 0 } } := by rw [← hF]
  rw [hstart]
  have hrot : ∀ (B L : Int) (t : Time),
      isRotate { F with stats := { bytes := B, lines := L } } t = decide (L ≥ (n : Int)) := by
    intro B L t
    rw [isRotate_of_lines { F with stats := { bytes := B, lines := L } } t hFpol]
    have hn0 : (n : Int) ≠ 0 := by omega
    simp [hFmax, hn0]
  have hokF : ∀ x ∈ calls ++ [last],
      (record (d.applyFormatter F.formatter F.flags x.2.2)).length ≤ x.1.writeCap := by
    intro x hx
    rw [hFfmt, hFflags]
    exact (hok x hx).2.2.2
  have hrun : ∀ pre, pre.length ≤ n → (∀ x ∈ pre, x ∈ calls ++ [last]) →
      (LogAll d pre (fs1, { F with stats := { bytes := 0, lines := 0 } })).2 =
        { F with stats :=
          { bytes := 0 + ((written d F pre).length : Int), lines := 0 + (pre.length : Int) } } ∧
      (LogAll d pre (fs1, { F with stats := { bytes := 0, lines := 0 } })).1.files F.filename =
        some ([] ++ written d F pre) := by
    intro pre hpre hmem
    have := LogAll_no_rotate d F hFout pre fs1 [] 0 0 (by rw [hFn]; exact hfile)
      (fun x hx => hokF x (hmem x hx))
      (by
        intro p x post hsplit
        rw [hrot]
        have hl := congrArg List.length hsplit
        simp only [List.length_append, List.length_cons] at hl
        simp only [decide_eq_false_iff_not, not_le]
        omega)
    exact ⟨this.1, this.2.1⟩
  refine ⟨?_, ?_, ?_, ?_⟩
  · intro pre x post hsplit
    have hl := congrArg List.length hsplit
    simp only [List.length_append, List.length_cons] at hl
    have hmem : ∀ y ∈ pre, y ∈ calls ++ [last] := by
      intro y hy
      rw [hsplit]
      simp [hy]
    rw [(hrun pre (by omega) hmem).1, hrot]
    simp only [decide_eq_false_iff_not, not_le]
    omega
  · rw [(hrun calls (by omega) (fun y hy => by simp [hy])).1, hrot]
    simp only [decide_eq_true_eq]
    omega
  all_goals
    obtain ⟨r1, r2⟩ := hrun calls (by omega) (fun y hy => by simp [hy])
    obtain ⟨io, now, entry⟩ := last
    have hlast := hok (io, now, entry) (by simp)
    have hrot2 : isRotate { F with stats :=
        { bytes := 0 + ((written d F calls).length : Int),
          lines := 0 + (calls.length : Int) } } now = true := by
      rw [hrot]
      simp only [decide_eq_true_eq]
      omega
    have hne : backupFileName d F now ≠ F.filename :=
      backupFileName_ne_filename d F now (by rw [hFn]; exact hname)
        (by rw [hFutc]; exact hfmt)
    have hb : backupFileName d F now = backupFileName d f0 now := by
      rw [← hF]
      rfl
    have hstep := Log_rotate d io now
      (LogAll d calls (fs1, { F with stats := { bytes := 0, lines := 0 } })).1 F entry
      { bytes := 0 + ((written d F calls).length : Int), lines := 0 + (calls.length : Int) }
      ([] ++ written d F calls) hFout hFc hrot2
      (by
        refine ⟨hlast.1, hlast.2.1, hlast.2.2.1, ?_⟩
        rw [hFfmt, hFflags]
        exact hlast.2.2.2)
      r2 hne
    rw [LogAll_append]
    have hpair : LogAll d calls (fs1, { F with stats := { bytes := 0, lines := 0 } }) =
        ((LogAll d calls (fs1, { F with stats := { bytes := 0, lines := 0 } })).1,
         { F with stats :=
           { bytes := 0 + ((written d F calls).length : Int),
             lines := 0 + (calls.length : Int) } }) := Prod.ext rfl r1
    rw [hpair]
    simp only [LogAll]
  · rw [← hb, hstep.2.2.1]
    simp [written_congr d F f0 hFfmt hFflags]
  · rw [← hFn, hstep.2.1, hFfmt, hFflags]

/-- Witness of C4: with `maxLines = 3` and four `Log` calls, the backup holds
the first three records and the active file the fourth. -/
theorem Log_lines_rotation_witness :
    (LogAll demoDeps
      ([demoCall ['a'], demoCall ['b'], demoCall ['c']] ++ [demoCallNextDay ['d']])
      ((openFile okSys emptyFS (demoReceiver policyLines 3 0)).fs,
       (openFile okSys emptyFS (demoReceiver policyLines 3 0)).f)).1.files
      "logs/app-2017-6-2.log".toList = some ['a', '\n', 'b', '\n', 'c', '\n'] ∧
    (LogAll demoDeps
      ([demoCall ['a'], demoCall ['b'], demoCall ['c']] ++ [demoCallNextDay ['d']])
      ((openFile okSys emptyFS (demoReceiver policyLines 3 0)).fs,
       (openFile okSys emptyFS (demoReceiver policyLines 3 0)).f)).1.files
      demoPath = some ['d', '\n'] :=
  (Log_lines_rotation demoDeps okSys emptyFS (demoReceiver policyLines 3 0) 3
    [demoCall ['a'], demoCall ['b'], demoCall ['c']] (demoCallNextDay ['d'])
    (by decide) (by decide) (by decide) (by decide) (by decide) (by decide) (by decide)
    (by decide) (by decide)).2.2

/-- C5, amended: under the "size" policy with `maxSize = 100`, from a freshly
opened empty file and with every write, rename and open succeeding, for five
records whose total size is below 100 bytes after the fourth and at least 100
after the fifth, none of the five `Log` calls rotates: the fifth record is
appended to the same file, which then holds all five records, and no other file
changes; the next `Log` call rotates before it writes, leaving the five records
in the backup file and its own record in the active file. -/
theorem Log_size_rotation (d : Deps Flags Entry) (io0 : Sys) (fs0 : FS)
    (f0 : FileReceiver Flags) (calls : List (Sys × Time × Entry))
    (next : Sys × Time × Entry)
    (hpol : f0.rotatePolicy = policySize) (hmax : f0.maxSize = 100)
    (hempty : fs0.content f0.filename = []) (hopen : (openFile io0 fs0 f0).err = none)
    (hlen : calls.length = 5) (hok : ∀ x ∈ calls ++ [next], CallOk d f0 x)
    (hbelow : (written d f0 calls.dropLast).length < 100)
    (hreach : 100 ≤ (written d f0 calls).length)
    (hname : Base f0.filename ≠ ['/'])
    (hfmt : '/' ∉ d.formatBackupTime (if f0.isUTC then next.2.1.UTC else next.2.1)) :
    (∀ pre x post, calls = pre ++ x :: post →
      isRotate (LogAll d pre ((openFile io0 fs0 f0).fs, (openFile io0 fs0 f0).f)).2 x.2.1 =
        false) ∧
    (LogAll d calls ((openFile io0 fs0 f0).fs, (openFile io0 fs0 f0).f)).1.files f0.filename =
      some (written d f0 calls) ∧
    (∀ p, p ≠ f0.filename →
      (LogAll d calls ((openFile io0 fs0 f0).fs, (openFile io0 fs0 f0).f)).1.files p =
        fs0.files p) ∧
    (LogAll d calls ((openFile io0 fs0 f0).fs, (openFile io0 fs0 f0).f)).2.stats =
      { bytes := ((written d f0 calls).length : Int), lines := 5 } ∧
    isRotate (LogAll d calls ((openFile io0 fs0 f0).fs, (openFile io0 fs0 f0).f)).2 next.2.1 =
      true ∧
    (LogAll d (calls ++ [next]) ((openFile io0 fs0 f0).fs, (openFile io0 fs0 f0).f)).1.files
      (backupFileName d f0 next.2.1) = some (written d f0 calls) ∧
    (LogAll d (calls ++ [next]) ((openFile io0 fs0 f0).fs, (openFile io0 fs0 f0).f)).1.files
      f0.filename = some (record (d.applyFormatter f0.formatter f0.flags next.2.2)) := by
  obtain ⟨hf, hfile, hother⟩ := openFile_fresh io0 fs0 f0 hempty hopen
  generalize (openFile io0 fs0 f0).fs = fs1 at hfile hother ⊢
  rw [hf]
  generalize hF :
    ({ f0 with out := ⟨f0.filename, false⟩, isClosed := false } : FileReceiver Flags) = F
  have hFn : F.filename = f0.filename := by rw [← hF]
  have hFout : F.out = { path := F.filename, closed := false } := by rw [← hF]
  have hFc : F.isClosed = false := by rw [← hF]
  have hFpol : F.rotatePolicy = policySize := by rw [← hF]; exact hpol
  have hFmax : F.maxSize = 100 := by rw [← hF]; exact hmax
  have hFfmt : F.formatter = f0.formatter := by rw [← hF]
  have hFflags : F.flags = f0.flags := by rw [← hF]
  have hFutc : F.isUTC = f0.isUTC := by rw [← hF]
  have hstart :
      ({ f0 with out := ⟨f0.filename, false⟩, isClosed := false, stats := ⟨0, 0⟩ } :
        FileReceiver Flags) = { F with stats := { bytes := 0, lines := 0 } } := by rw [← hF]
  rw [hstart]
  have hw : ∀ l, written d F l = written d f0 l := written_congr d F f0 hFfmt hFflags
  have hrot : ∀ (B L : Int) (t : Time),
      isRotate { F with stats := { bytes := B, lines := L } } t = decide (B ≥ 100) := by
    intro B L t
    rw [isRotate_of_size { F with stats := { bytes := B, lines := L } } t hFpol]
    simp [hFmax]
  have hokF : ∀ x ∈ calls ++ [next],
      (record (d.applyFormatter F.formatter F.flags x.2.2)).length ≤ x.1.writeCap := by
    intro x hx
    rw [hFfmt, hFflags]
    exact (hok x hx).2.2.2
  have hlt : ∀ p x q, calls = p ++ x :: q → (written d F p).length < 100 := by
    intro p x q hsplit
    have hd : calls.dropLast = p ++ (x :: q).dropLast := by
      rw [hsplit, List.dropLast_append_of_ne_nil _ (by simp)]
    rw [hd, written_append, List.length_append, ← hw] at hbelow
    omega
  have hrun : ∀ pre suf, calls = pre ++ suf →
      (LogAll d pre (fs1, { F with stats := { bytes := 0, lines := 0 } })).2 =
        { F with stats :=
          { bytes := 0 + ((written d F pre).length : Int), lines := 0 + (pre.length : Int) } } ∧
      (LogAll d pre (fs1, { F with stats := { bytes := 0, lines := 0 } })).1.files F.filename =
        some ([] ++ written d F pre) ∧
      ∀ p, p ≠ F.filename →
        (LogAll d pre (fs1, { F with stats := { bytes := 0, lines := 0 } })).1.files p =
          fs1.files p := by
    intro pre suf hsplit
    exact LogAll_no_rotate d F hFout pre fs1 [] 0 0 (by rw [hFn]; exact hfile)
      (fun x hx => hokF x (by rw [hsplit]; simp [hx]))
      (by
        intro p x post hsplit2
        rw [hrot]
        have := hlt p x (post ++ suf) (by rw [hsplit, hsplit2]; simp)
        simp only [decide_eq_false_iff_not, not_le, ge_iff_le]
        omega)
  obtain ⟨r1, r2, r3⟩ := hrun calls [] (by simp)
  have hrot2 : ∀ t, isRotate { F with stats :=
      { bytes := 0 + ((written d F calls).length : Int),
        lines := 0 + (calls.length : Int) } } t = true := by
    intro t
    rw [hrot, hw]
    simp only [decide_eq_true_eq, ge_iff_le]
    omega
  refine ⟨?_, ?_, ?_, ?_, ?_, ?_, ?_⟩
  · intro pre x post hsplit
    rw [(hrun pre (x :: post) hsplit).1, hrot]
    have := hlt pre x post hsplit
    simp only [decide_eq_false_iff_not, not_le, ge_iff_le]
    omega
  · rw [← hFn, r2, hw]
    simp
  · intro p hp
    rw [r3 p (by rw [hFn]; exact hp)]
    exact hother p hp
  · rw [r1, hw, hlen]
    simp
  · rw [r1]
    exact hrot2 _
  all_goals
    obtain ⟨io, now, entry⟩ := next
    have hlast := hok (io, now, entry) (by simp)
    have hne : backupFileName d F now ≠ F.filename :=
      backupFileName_ne_filename d F now (by rw [hFn]; exact hname)
        (by rw [hFutc]; exact hfmt)
    have hb : backupFileName d F now = backupFileName d f0 now := by
      rw [← hF]
      rfl
    have hstep := Log_rotate d io now
      (LogAll d calls (fs1, { F with stats := { bytes := 0, lines := 0 } })).1 F entry
      { bytes := 0 + ((written d F calls).length : Int), lines := 0 + (calls.length : Int) }
      ([] ++ written d F calls) hFout hFc (hrot2 now)
      (by
        refine ⟨hlast.1, hlast.2.1, hlast.2.2.1, ?_⟩
        rw [hFfmt, hFflags]
        exact hlast.2.2.2)
      r2 hne
    rw [LogAll_append]
    have hpair : LogAll d calls (fs1, { F with stats := { bytes := 0, lines := 0 } }) =
        ((LogAll d calls (fs1, { F with stats := { bytes := 0, lines := 0 } })).1,
         { F with stats :=
           { bytes := 0 + ((written d F calls).length : Int),
             lines := 0 + (calls.length : Int) } }) := Prod.ext rfl r1
    rw [hpair]
    simp only [LogAll]
  · rw [← hb, hstep.2.2.1, hw]
    simp
  · rw [← hFn, hstep.2.1, hFfmt, hFflags]

/-- Witness of C5: five records of 20 bytes under `maxSize = 100`; the fifth
call does not rotate and the file holds the 100 bytes of the five records. -/
theorem Log_size_rotation_witness :
    isRotate (LogAll demoDeps
      [demoCall entry19, demoCall entry19, demoCall entry19, demoCall entry19]
      ((openFile okSys emptyFS (demoReceiver policySize 0 100)).fs,
       (openFile okSys emptyFS (demoReceiver policySize 0 100)).f)).2
      (demoCall entry19).2.1 = false ∧
    isRotate (LogAll demoDeps
      [demoCall entry19, demoCall entry19, demoCall entry19, demoCall entry19, demoCall entry19]
      ((openFile okSys emptyFS (demoReceiver policySize 0 100)).fs,
       (openFile okSys emptyFS (demoReceiver policySize 0 100)).f)).2
      (demoCallNextDay entry19).2.1 = true :=
  ⟨(Log_size_rotation demoDeps okSys emptyFS (demoReceiver policySize 0 100)
      [demoCall entry19, demoCall entry19, demoCall entry19, demoCall entry19, demoCall entry19]
      (demoCallNextDay entry19)
      (by decide) (by decide) (by decide) (by decide) (by decide) (by decide) (by decide)
      (by decide) (by decide) (by decide)).1
      [demoCall entry19, demoCall entry19, demoCall entry19, demoCall entry19]
      (demoCall entry19) [] rfl,
   (Log_size_rotation demoDeps okSys emptyFS (demoReceiver policySize 0 100)
      [demoCall entry19, demoCall entry19, demoCall entry19, demoCall entry19, demoCall entry19]
      (demoCallNextDay entry19)
      (by decide) (by decide) (by decide) (by decide) (by decide) (by decide) (by decide)
      (by decide) (by decide) (by decide)).2.2.2.2.1⟩

/-- C5, counterexample: five records of 20 bytes under `maxSize = 100`, 80
bytes after the fourth and 100 after the fifth; the fifth `Log` call does not
rotate, no backup file exists after it, and the active file holds all 100 bytes. -/
theorem Log_size_fifth_call_no_rotation :
    (written demoDeps (demoReceiver policySize 0 100)
      [demoCall entry19, demoCall entry19, demoCall entry19, demoCall entry19]).length = 80 ∧
    (written demoDeps (demoReceiver policySize 0 100)
      [demoCall entry19, demoCall entry19, demoCall entry19, demoCall entry19,
       demoCall entry19]).length = 100 ∧
    isRotate (LogAll demoDeps
      [demoCall entry19, demoCall entry19, demoCall entry19, demoCall entry19]
      ((openFile okSys emptyFS (demoReceiver policySize 0 100)).fs,
       (openFile okSys emptyFS (demoReceiver policySize 0 100)).f)).2
      (demoCall entry19).2.1 = false ∧
    (LogAll demoDeps
      [demoCall entry19, demoCall entry19, demoCall entry19, demoCall entry19, demoCall entry19]
      ((openFile okSys emptyFS (demoReceiver policySize 0 100)).fs,
       (openFile okSys emptyFS (demoReceiver policySize 0 100)).f)).1.files
      (backupFileName demoDeps (demoReceiver policySize 0 100) (demoCall entry19).2.1) = none ∧
    ((LogAll demoDeps
      [demoCall entry19, demoCall entry19, demoCall entry19, demoCall entry19, demoCall entry19]
      ((openFile okSys emptyFS (demoReceiver policySize 0 100)).fs,
       (openFile okSys emptyFS (demoReceiver policySize 0 100)).f)).1.files
      demoPath).map List.length = some 100 := by
  decide

/-! ### The state after a rotation -/

/-- The method `close` keeps the file name, the policy and the limits. -/
theorem close_fields (f : FileReceiver Flags) :
    (close f).filename = f.filename ∧ (close f).isUTC = f.isUTC ∧
    (close f).rotatePolicy = f.rotatePolicy ∧ (close f).openDay = f.openDay ∧
    (close f).maxLines = f.maxLines ∧ (close f).maxSize = f.maxSize := by
  unfold close
  split <;> simp

/-- The method `openFile` keeps the file name, the policy, `openDay` and the limits. -/
theorem openFile_fields (io : Sys) (fs : FS) (f : FileReceiver Flags) :
    (openFile io fs f).f.filename = f.filename ∧ (openFile io fs f).f.isUTC = f.isUTC ∧
    (openFile io fs f).f.rotatePolicy = f.rotatePolicy ∧
    (openFile io fs f).f.openDay = f.openDay ∧
    (openFile io fs f).f.maxLines = f.maxLines ∧ (openFile io fs f).f.maxSize = f.maxSize := by
  unfold openFile
  split
  · simp
  · split <;> simp

/-- No path of `rotateFile` assigns `openDay`, the policy or the limits. -/
theorem rotateFile_fields (d : Deps Flags Entry) (io : Sys) (now : Time) (fs : FS)
    (f : FileReceiver Flags) :
    (rotateFile d io now fs f).f.isUTC = f.isUTC ∧
    (rotateFile d io now fs f).f.rotatePolicy = f.rotatePolicy ∧
    (rotateFile d io now fs f).f.openDay = f.openDay ∧
    (rotateFile d io now fs f).f.maxLines = f.maxLines ∧
    (rotateFile d io now fs f).f.maxSize = f.maxSize := by
  have hc := close_fields f
  unfold rotateFile
  split
  · split
    · exact hc.2
    · have ho := openFile_fields io (fs.rename f.filename (backupFileName d (close f) now))
        (close f)
      exact ⟨ho.2.1.trans hc.2.1, ho.2.2.1.trans hc.2.2.1, ho.2.2.2.1.trans hc.2.2.2.1,
        ho.2.2.2.2.1.trans hc.2.2.2.2.1, ho.2.2.2.2.2.trans hc.2.2.2.2.2⟩
  · exact (openFile_fields io fs f).2

/-- Under the daily policy a rotation does not change what `isRotate` answers:
`rotateFile` leaves `openDay` as it was. -/
theorem rotateFile_daily_isRotate (d : Deps Flags Entry) (io : Sys) (now : Time) (fs : FS)
    (f : FileReceiver Flags) (hpol : f.rotatePolicy = policyDaily) :
    isRotate (rotateFile d io now fs f).f now = isRotate f now := by
  obtain ⟨h1, h2, h3, _, _⟩ := rotateFile_fields d io now fs f
  unfold isRotate
  rw [h1, h2, h3, if_pos hpol, if_pos hpol]

/-- After a successful `rotateFile` the counters are zero: the file that is
opened is new. -/
theorem rotateFile_stats (d : Deps Flags Entry) (io : Sys) (now : Time) (fs : FS)
    (f : FileReceiver Flags) (hok : (rotateFile d io now fs f).err = none)
    (hname : Base f.filename ≠ ['/'])
    (hfmt : '/' ∉ d.formatBackupTime (if f.isUTC then now.UTC else now)) :
    (rotateFile d io now fs f).f.stats = { bytes := 0, lines := 0 } ∧
    (rotateFile d io now fs f).f.isClosed = false := by
  have hc := close_fields f
  have hne := backupFileName_ne_filename d f now hname hfmt
  have hb : backupFileName d (close f) now = backupFileName d f now := by
    unfold backupFileName
    rw [hc.1, hc.2.1]
  unfold rotateFile at hok ⊢
  by_cases hex : fs.exists f.filename = true
  · rw [if_pos hex] at hok ⊢
    by_cases hren : io.renameFails = true
    · simp [hren] at hok
    · simp only [hren, Bool.false_eq_true, if_false] at hok ⊢
      rw [hb] at hok ⊢
      have hempty : (fs.rename f.filename (backupFileName d f now)).content
          (close f).filename = [] := by
        rw [hc.1]
        simp [FS.content, FS.rename, Ne.symm hne]
      have := (openFile_fresh io _ (close f) hempty hok).1
      rw [this]
      exact ⟨rfl, rfl⟩
  · rw [if_neg hex] at hok ⊢
    have hempty : fs.content f.filename = [] := by
      have : fs.files f.filename = none := by
        simpa [FS.exists] using hex
      simp [FS.content, this]
    have := (openFile_fresh io fs f hempty hok).1
    rw [this]
    exact ⟨rfl, rfl⟩

/-- Under the "lines" and "size" policies with a limit that is not negative,
`isRotate` is false right after a successful `rotateFile`. -/
theorem rotateFile_lines_size_not_due (d : Deps Flags Entry) (io : Sys) (now : Time)
    (fs : FS) (f : FileReceiver Flags) (hok : (rotateFile d io now fs f).err = none)
    (hname : Base f.filename ≠ ['/'])
    (hfmt : '/' ∉ d.formatBackupTime (if f.isUTC then now.UTC else now))
    (hpol : (f.rotatePolicy = policyLines ∧ 0 ≤ f.maxLines) ∨
      (f.rotatePolicy = policySize ∧ 0 ≤ f.maxSize)) :
    isRotate (rotateFile d io now fs f).f now = false := by
  obtain ⟨_, h2, _, h4, h5⟩ := rotateFile_fields d io now fs f
  have hs := (rotateFile_stats d io now fs f hok hname hfmt).1
  rcases hpol with ⟨hp, hm⟩ | ⟨hp, hm⟩
  · rw [isRotate_of_lines _ _ (h2.trans hp), hs, h4]
    simp only [ne_eq, ge_iff_le, Bool.and_eq_false_imp, decide_eq_true_eq, decide_eq_false_iff_not,
      not_le]
    intro h0
    omega
  · rw [isRotate_of_size _ _ (h2.trans hp), hs, h5]
    simp only [ne_eq, ge_iff_le, Bool.and_eq_false_imp, decide_eq_true_eq, decide_eq_false_iff_not,
      not_le]
    intro h0
    omega

/-- C3, the code at the failing input: the file is opened by `Init` on 1 June
2017 under the daily policy; on 2 June `isRotate` is true and `rotateFile`
returns without error; `openDay` is still 1 while the day is 2, and `isRotate`
at that same instant is still true. -/
theorem rotateFile_daily_openDay_stale :
    isRotate (demoStart policyDaily 0 (onDate 2017 6 1)).f (onDate 2017 6 2) = true ∧
    (rotateFile demoDeps okSys (onDate 2017 6 2) (demoStart policyDaily 0 (onDate 2017 6 1)).fs
      (demoStart policyDaily 0 (onDate 2017 6 1)).f).err = none ∧
    (rotateFile demoDeps okSys (onDate 2017 6 2) (demoStart policyDaily 0 (onDate 2017 6 1)).fs
      (demoStart policyDaily 0 (onDate 2017 6 1)).f).f.openDay = 1 ∧
    (onDate 2017 6 2).Day = 2 ∧
    isRotate (rotateFile demoDeps okSys (onDate 2017 6 2)
      (demoStart policyDaily 0 (onDate 2017 6 1)).fs
      (demoStart policyDaily 0 (onDate 2017 6 1)).f).f (onDate 2017 6 2) = true := by
  decide

/-! ### Initialization -/

/-- The receiver after a successful `openFile`. -/
theorem openFile_ok (io : Sys) (fs : FS) (f : FileReceiver Flags)
    (hok : (openFile io fs f).err = none) :
    (openFile io fs f).f =
      { f with
        out := { path := f.filename, closed := false }
        isClosed := false
        stats :=
          { bytes := (((fs.create f.filename).content f.filename).length : Int)
            lines := LineCntr ((fs.create f.filename).content f.filename) } } := by
  unfold openFile at hok ⊢
  by_cases h1 : io.openFails = true
  · simp [h1] at hok
  · by_cases h2 : io.statFails = true
    · simp [h1, h2] at hok
    · simp [h1, h2]

/-- After a successful `Init` on a file that holds `content`, the file is not
closed and the counters are the size and the line count of `content`. -/
theorem Init_stats (d : Deps Flags Entry) (io : Sys) (now : Time) (cfg : Config) (fs : FS)
    (f0 : FileReceiver Flags) (content : Str)
    (hfile : fs.files (cfg.file.getD []) = some content)
    (hok : (Init d io now cfg fs f0).err = none) :
    (Init d io now cfg fs f0).f.isClosed = false ∧
    (Init d io now cfg fs f0).f.stats =
      { bytes := (content.length : Int), lines := (content.count '\n' : Int) } := by
  by_cases h1 : d.IsStrEmpty (cfg.file.getD []) = true
  · simp [Init, h1] at hok
  · cases h2 : (openFile io fs { f0 with filename := cfg.file.getD [] }).err with
    | some e => simp [Init, h1, h2] at hok
    | none =>
      have ho := openFile_ok io fs { f0 with filename := cfg.file.getD [] } h2
      have hcontent : (fs.create (cfg.file.getD [])).content (cfg.file.getD []) = content := by
        simp [FS.create, FS.content, hfile]
      simp only [hcontent] at ho
      by_cases h3 : cfg.format.getD textFmt = textFmt ∨ cfg.format.getD textFmt = jsonFmt
      · by_cases h4 : cfg.rotatePolicy.getD policyDaily = policyDaily
        · simp [Init, h1, h2, h3, h4, ho, LineCntr]
        · by_cases h5 : cfg.rotatePolicy.getD policyDaily = policyLines
          · simp [Init, h1, h2, h3, h5, policy_names_ne.1, ho, LineCntr]
          · by_cases h6 : cfg.rotatePolicy.getD policyDaily = policySize
            · cases h7 : d.StrToBytes (cfg.rotateSize.getD defaultRotateSize) with
              | none =>
                simp [Init, h1, h2, h3, h6, h7, policy_names_ne.2.1, policy_names_ne.2.2] at hok
              | some n =>
                simp [Init, h1, h2, h3, h6, h7, policy_names_ne.2.1, policy_names_ne.2.2, ho,
                  LineCntr]
            · simp [Init, h1, h2, h3, h4, h5, h6, ho, LineCntr]
      · simp [Init, h1, h2, h3] at hok

/-! ### Further evaluations -/

/-- A `Log` call that rotates and whose write then returns zero bytes: the
counters before the call are 6 bytes and 3 lines, after the call they are those
of the new file, 0 bytes and 0 lines. -/
theorem Log_zero_write_after_rotation :
    (LogAll demoDeps [demoCall ['a'], demoCall ['b'], demoCall ['c']]
      ((openFile okSys emptyFS (demoReceiver policyLines 3 0)).fs,
       (openFile okSys emptyFS (demoReceiver policyLines 3 0)).f)).2.stats = ⟨6, 3⟩ ∧
    (Log demoDeps { okSys with writeCap := 0 } (onDate 2017 6 2)
      (LogAll demoDeps [demoCall ['a'], demoCall ['b'], demoCall ['c']]
        ((openFile okSys emptyFS (demoReceiver policyLines 3 0)).fs,
         (openFile okSys emptyFS (demoReceiver policyLines 3 0)).f)).1
      (LogAll demoDeps [demoCall ['a'], demoCall ['b'], demoCall ['c']]
        ((openFile okSys emptyFS (demoReceiver policyLines 3 0)).fs,
         (openFile okSys emptyFS (demoReceiver policyLines 3 0)).f)).2 ['d']).2.stats =
      ⟨0, 0⟩ := by
  decide

/-- Under the "lines" policy with the limit -1, `isRotate` is true right after a
successful `rotateFile`: zero lines have reached the limit. -/
theorem rotateFile_negative_limit_due :
    (rotateFile demoDeps okSys (onDate 2017 6 2)
      (openFile okSys emptyFS (demoReceiver policyLines (-1) 0)).fs
      (openFile okSys emptyFS (demoReceiver policyLines (-1) 0)).f).err = none ∧
    isRotate (rotateFile demoDeps okSys (onDate 2017 6 2)
      (openFile okSys emptyFS (demoReceiver policyLines (-1) 0)).fs
      (openFile okSys emptyFS (demoReceiver policyLines (-1) 0)).f).f (onDate 2017 6 2) =
      true := by
  decide

end Theorems

end Aah
